import Mathlib

/-!
Verification of the message-debounce subsystem of `src/server/debounce.py`
(`MessageBuffer`, `DebounceManager`).

The Python code is shallowly embedded as a state machine.  A
`DebounceManager` value carries the two fields of the Python object
(`debounce_seconds`, `buffers` — the dict modelled as an association list)
together with ghost instrumentation that makes the asyncio runtime
explicit: the list of timer tasks ever created (`tasks`, indices playing
the role of `asyncio.Task` handles), the log of Trigger-Callback
invocations (`callbackLog`), the log of caught callback exceptions
(`errorLog`), and the current time (`now`).

`add_message`, `get_buffer_status` and `clear_buffer` contain no `await`,
so each is one atomic step.  `_timer_callback` suspends twice — at
`asyncio.sleep` and at `await callback(...)` — so it is split at those
points: `timerExpire` is the atomic segment that runs when the sleep
completes (lines 116–131, up to and including starting the callback), and
`timerFinish` is the segment that runs when the awaited callback returns
or raises (lines 131–137).  The scheduler is an adversarial trace of
events (`Event`, `step`, `run`); guards encode exactly what the asyncio
runtime guarantees: a task resumes from `asyncio.sleep` only after the
debounce duration has elapsed and only if it has not been cancelled, and
time is monotone.
-/

set_option linter.unusedVariables false

namespace ClaraDebounce

/-- Lifecycle of an asyncio task running `_timer_callback`: `sleeping`
while suspended in `asyncio.sleep`, `running` while suspended in
`await callback(...)`, `cancelled` after `Task.cancel()` took effect,
`done` after normal completion.  `Task.done()` is true for `cancelled`
and `done`. -/
inductive TaskStatus where
  | sleeping
  | running
  | cancelled
  | done
deriving DecidableEq

/-- A timer task created by `asyncio.create_task(self._timer_callback(...))`
(line 94).  `phone` and `armed_at` record the arguments and creation time;
`invokedWith` is ghost state recording the arguments the Trigger Callback
was started with (set when line 131 begins executing). -/
structure TimerTask where
  phone : String
  armed_at : ℤ
  status : TaskStatus
  invokedWith : Option (String × String)
deriving DecidableEq

/-- `MessageBuffer` (lines 15–37): aggregated messages for a single user.
`timer_task` holds the index of the buffer's timer task, `none` only at
construction (line 22, `timer_task: Optional[asyncio.Task] = None`). -/
structure MessageBuffer where
  phone_number : String
  messages : List String
  timer_task : Option Nat
  created_at : ℤ
  last_updated : ℤ
deriving DecidableEq

/-- The `DebounceManager` object (lines 40–59) plus the ghost runtime
state described in the module docstring. -/
structure DebounceManager where
  debounce_seconds : ℤ
  buffers : List (String × MessageBuffer)
  tasks : List TimerTask
  callbackLog : List (Nat × String × String)
  errorLog : List String
  now : ℤ
deriving DecidableEq

/-- `self.buffers.get(p)` / `p in self.buffers` on the dict, modelled on
the association list. -/
def lookupBuf : List (String × MessageBuffer) → String → Option MessageBuffer
  | [], _ => none
  | kv :: rest, p => if kv.1 = p then some kv.2 else lookupBuf rest p

/-- `self.buffers[p] = v` on the dict: update in place, or append a new
key. -/
def setBuf : List (String × MessageBuffer) → String → MessageBuffer → List (String × MessageBuffer)
  | [], p, v => [(p, v)]
  | kv :: rest, p, v => if kv.1 = p then (p, v) :: rest else kv :: setBuf rest p v

/-- `del self.buffers[p]` on the dict. -/
def delBuf : List (String × MessageBuffer) → String → List (String × MessageBuffer)
  | [], _ => []
  | kv :: rest, p => if kv.1 = p then delBuf rest p else kv :: delBuf rest p

/-- Pointwise update of the task with handle `i`. -/
def modifyTask : List TimerTask → Nat → (TimerTask → TimerTask) → List TimerTask
  | [], _, _ => []
  | tk :: rest, 0, f => f tk :: rest
  | tk :: rest, i + 1, f => tk :: modifyTask rest i f

/-- `Task.done()`: the task has finished, by completion or cancellation. -/
def TaskStatus.isDone : TaskStatus → Bool
  | .cancelled => true
  | .done => true
  | _ => false

/-- `buffer.timer_task.done()` for the task with handle `i` (a dangling
handle — impossible in Python — counts as done). -/
def taskDone (ts : List TimerTask) (i : Nat) : Bool :=
  match ts.get? i with
  | none => true
  | some tk => tk.status.isDone

/-- `Task.cancel()`: a task suspended in `asyncio.sleep` or in
`await callback(...)` receives `CancelledError` and ends cancelled; a task
that already finished is unaffected. -/
def cancelTask (ts : List TimerTask) (i : Nat) : List TimerTask :=
  modifyTask ts i (fun tk =>
    match tk.status with
    | .sleeping => { tk with status := .cancelled }
    | .running => { tk with status := .cancelled }
    | _ => tk)

/-- `DebounceManager.__init__` (lines 51–60): stores `debounce_seconds`
and an empty dict.  The source performs no validation of the duration. -/
def DebounceManager.init (debounce_seconds : ℤ) : DebounceManager :=
  ⟨debounce_seconds, [], [], [], [], 0⟩

/-- `DebounceManager.add_message` (lines 62–97), one atomic step (the
method contains no `await`), executing at time `t` (`datetime.utcnow()`):
get-or-create the buffer (77–79), cancel its timer if not done (84–86),
append the message and stamp `last_updated` (26–29, 89), then create a
fresh sleeping timer task and store its handle (94–96). -/
def add_message (st : DebounceManager) (phone_number message_text : String) (t : ℤ) :
    DebounceManager :=
  let buffers0 :=
    match lookupBuf st.buffers phone_number with
    | some _ => st.buffers
    | none => setBuf st.buffers phone_number (MessageBuffer.mk phone_number [] none t t)
  let buffer := (lookupBuf buffers0 phone_number).getD (MessageBuffer.mk phone_number [] none t t)
  let tasks1 :=
    match buffer.timer_task with
    | some i => if taskDone st.tasks i then st.tasks else cancelTask st.tasks i
    | none => st.tasks
  let buffer1 : MessageBuffer :=
    { buffer with
        messages := buffer.messages ++ [message_text]
        last_updated := t
        timer_task := some tasks1.length }
  { st with
      buffers := setBuf buffers0 phone_number buffer1
      tasks := tasks1 ++ [TimerTask.mk phone_number t .sleeping none] }

/-- `_timer_callback` after `asyncio.sleep` returns (lines 116–131), one
atomic segment: look up the buffer (116–119: if absent, warn and finish),
snapshot `get_aggregated_text()` (31–33, 121: `" ".join(messages)`),
`buffer.clear()` (35–37, 128: resets `messages` only — `timer_task` is
not touched), then start `await callback(phone_number, aggregated_text)`
(131): the invocation is recorded and the task is now `running`. -/
def timerExpire (st : DebounceManager) (tid : Nat) : DebounceManager :=
  match st.tasks.get? tid with
  | none => st
  | some tk =>
      match lookupBuf st.buffers tk.phone with
      | none =>
          { st with tasks := modifyTask st.tasks tid (fun u => { u with status := .done }) }
      | some buffer =>
          let aggregated_text := String.intercalate " " buffer.messages
          let buffers1 := setBuf st.buffers tk.phone { buffer with messages := [] }
          { st with
              buffers := buffers1
              tasks := modifyTask st.tasks tid
                (fun u => { u with status := .running
                                   invokedWith := some (tk.phone, aggregated_text) })
              callbackLog := st.callbackLog ++ [(tid, tk.phone, aggregated_text)] }

/-- Behaviour of the external Trigger Callback on given arguments,
parameterised by which invocations raise: the `await` either returns
normally or re-raises the callback's exception. -/
def callbackRun (cbFail : String → String → Bool) (p x : String) : Except String Unit :=
  if cbFail p x then Except.error p else Except.ok ()

/-- `_timer_callback` when `await callback(...)` returns or raises
(lines 131–137): an exception propagating out of the `await` is caught by
`except Exception` (136) and logged (137) — it does not escape the task,
nothing is retried — and the task completes. -/
def timerFinish (cbFail : String → String → Bool) (st : DebounceManager) (tid : Nat) :
    DebounceManager :=
  match st.tasks.get? tid with
  | none => st
  | some tk =>
      match tk.invokedWith with
      | none => { st with tasks := modifyTask st.tasks tid (fun u => { u with status := .done }) }
      | some px =>
          let st1 :=
            match callbackRun cbFail px.1 px.2 with
            | .ok _ => st
            | .error s => { st with errorLog := st.errorLog ++ [s] }
          { st1 with tasks := modifyTask st1.tasks tid (fun u => { u with status := .done }) }

/-- The record returned by `get_buffer_status` (lines 153–160).
`timer_active` is `buffer.timer_task and not buffer.timer_task.done()`:
Python yields `None` (not `False`) when `timer_task` is `None`, hence
`Option Bool`. -/
structure BufferStatus where
  phone_number : String
  message_count : Nat
  messages : List String
  created_at : ℤ
  last_updated : ℤ
  timer_active : Option Bool
deriving DecidableEq

/-- `DebounceManager.get_buffer_status` (lines 139–160): a pure read of
the state — the method performs no assignment, which the embedding
reflects by returning only the status record. -/
def get_buffer_status (st : DebounceManager) (phone_number : String) : Option BufferStatus :=
  match lookupBuf st.buffers phone_number with
  | none => none
  | some buffer =>
      some ⟨phone_number, buffer.messages.length, buffer.messages,
            buffer.created_at, buffer.last_updated,
            buffer.timer_task.map (fun i => !taskDone st.tasks i)⟩

/-- `DebounceManager.clear_buffer` (lines 162–174): if the sender is
tracked, cancel its timer task unconditionally (171–172; cancelling a
finished task is a no-op) and delete the buffer from the dict (173). -/
def clear_buffer (st : DebounceManager) (phone_number : String) : DebounceManager :=
  match lookupBuf st.buffers phone_number with
  | none => st
  | some buffer =>
      let tasks1 :=
        match buffer.timer_task with
        | some i => cancelTask st.tasks i
        | none => st.tasks
      { st with tasks := tasks1, buffers := delBuf st.buffers phone_number }

/-- Scheduler events: an ingress call to `add_message` at time `t`; timer
task `tid` resuming from `asyncio.sleep` at time `t`; the callback awaited
by task `tid` returning (or raising) at time `t`; an administrative
`clear_buffer` call at time `t`. -/
inductive Event where
  | add (phone_number message_text : String) (t : ℤ)
  | expire (tid : Nat) (t : ℤ)
  | finish (tid : Nat) (t : ℤ)
  | clear (phone_number : String) (t : ℤ)
deriving DecidableEq

/-- The time at which an event occurs. -/
def Event.time : Event → ℤ
  | .add _ _ t => t
  | .expire _ t => t
  | .finish _ t => t
  | .clear _ t => t

/-- Status of the task with handle `i`, if it exists. -/
def taskStatus (ts : List TimerTask) (i : Nat) : Option TaskStatus :=
  (ts.get? i).map TimerTask.status

/-- Creation time of the task with handle `i` (0 if dangling). -/
def armedAt (ts : List TimerTask) (i : Nat) : ℤ :=
  ((ts.get? i).map TimerTask.armed_at).getD 0

/-- One scheduler step.  Guards encode the runtime: time is monotone; a
task resumes from `asyncio.sleep(self.debounce_seconds)` only if still
sleeping (not cancelled) and only once the debounce duration has elapsed
since it was armed; the awaited callback returns only for a task that is
running it.  An event whose guard fails cannot be delivered and is a
no-op. -/
def step (cbFail : String → String → Bool) (st : DebounceManager) : Event → DebounceManager
  | .add p x t =>
      if st.now ≤ t then { add_message st p x t with now := t } else st
  | .expire i t =>
      if st.now ≤ t ∧ taskStatus st.tasks i = some .sleeping ∧
          armedAt st.tasks i + st.debounce_seconds ≤ t then
        { timerExpire st i with now := t }
      else st
  | .finish i t =>
      if st.now ≤ t ∧ taskStatus st.tasks i = some .running then
        { timerFinish cbFail st i with now := t }
      else st
  | .clear p t =>
      if st.now ≤ t then { clear_buffer st p with now := t } else st

/-- Run a trace of scheduler events. -/
def run (cbFail : String → String → Bool) (st : DebounceManager) (τ : List Event) :
    DebounceManager :=
  τ.foldl (step cbFail) st

/-- States reachable from a freshly constructed manager under some
callback behaviour and some admissible schedule. -/
def Reachable (st : DebounceManager) : Prop :=
  ∃ d cbFail τ, st = run cbFail (DebounceManager.init d) τ

/-- The key set of the sender-to-buffer dict. -/
def bufKeys (bs : List (String × MessageBuffer)) : List String :=
  bs.map Prod.fst

/-! ### Lemmas about the dict operations -/

theorem lookupBuf_setBuf_self (bs : List (String × MessageBuffer)) (p : String)
    (v : MessageBuffer) : lookupBuf (setBuf bs p v) p = some v := by
  induction bs with
  | nil => simp [setBuf, lookupBuf]
  | cons kv rest ih =>
      by_cases h : kv.1 = p
      · simp [setBuf, h, lookupBuf]
      · simp [setBuf, h, lookupBuf, ih]

theorem lookupBuf_setBuf_ne (bs : List (String × MessageBuffer)) (p q : String)
    (v : MessageBuffer) (h : q ≠ p) : lookupBuf (setBuf bs p v) q = lookupBuf bs q := by
  have hpq : ¬ p = q := fun e => h e.symm
  induction bs with
  | nil => simp [setBuf, lookupBuf, hpq]
  | cons kv rest ih =>
      by_cases hk : kv.1 = p
      · simp [setBuf, hk, lookupBuf, hpq]
      · simp [setBuf, hk, lookupBuf, ih]

theorem setBuf_setBuf (bs : List (String × MessageBuffer)) (p : String)
    (v w : MessageBuffer) : setBuf (setBuf bs p v) p w = setBuf bs p w := by
  induction bs with
  | nil => simp [setBuf]
  | cons kv rest ih =>
      by_cases h : kv.1 = p
      · simp [setBuf, h]
      · simp [setBuf, h, ih]

theorem lookupBuf_delBuf_self (bs : List (String × MessageBuffer)) (p : String) :
    lookupBuf (delBuf bs p) p = none := by
  induction bs with
  | nil => simp [delBuf, lookupBuf]
  | cons kv rest ih =>
      by_cases h : kv.1 = p
      · simp [delBuf, h, ih]
      · simp [delBuf, h, lookupBuf, ih]

theorem lookupBuf_delBuf_ne (bs : List (String × MessageBuffer)) (p q : String)
    (h : q ≠ p) : lookupBuf (delBuf bs p) q = lookupBuf bs q := by
  have hpq : ¬ p = q := fun e => h e.symm
  induction bs with
  | nil => simp [delBuf]
  | cons kv rest ih =>
      by_cases hk : kv.1 = p
      · simp [delBuf, hk, lookupBuf, ih, hpq]
      · simp [delBuf, hk, lookupBuf, ih]

theorem mem_bufKeys_iff_lookupBuf (bs : List (String × MessageBuffer)) (p : String) :
    p ∈ bufKeys bs ↔ lookupBuf bs p ≠ none := by
  induction bs with
  | nil => simp [bufKeys, lookupBuf]
  | cons kv rest ih =>
      by_cases h : kv.1 = p
      · simp [bufKeys, lookupBuf, h]
      · have h' : ¬ p = kv.1 := fun e => h e.symm
        have hl : lookupBuf (kv :: rest) p = lookupBuf rest p := by simp [lookupBuf, h]
        rw [hl]
        simp only [bufKeys, List.map_cons, List.mem_cons, h', false_or]
        simpa [bufKeys] using ih

theorem bufKeys_setBuf_of_mem (bs : List (String × MessageBuffer)) (p : String)
    (v : MessageBuffer) (h : p ∈ bufKeys bs) : bufKeys (setBuf bs p v) = bufKeys bs := by
  induction bs with
  | nil => simp [bufKeys] at h
  | cons kv rest ih =>
      by_cases hk : kv.1 = p
      · simp [setBuf, hk, bufKeys]
      · have hrest : p ∈ bufKeys rest := by
          rcases List.mem_map.mp h with ⟨a, ha, hap⟩
          rcases List.mem_cons.mp ha with h1 | h2
          · exact absurd (h1 ▸ hap) hk
          · exact List.mem_map.mpr ⟨a, h2, hap⟩
        have heq := ih hrest
        simp only [bufKeys] at heq
        simp [setBuf, hk, bufKeys, heq]

theorem bufKeys_setBuf_of_not_mem (bs : List (String × MessageBuffer)) (p : String)
    (v : MessageBuffer) (h : p ∉ bufKeys bs) : bufKeys (setBuf bs p v) = bufKeys bs ++ [p] := by
  induction bs with
  | nil => simp [setBuf, bufKeys]
  | cons kv rest ih =>
      by_cases hk : kv.1 = p
      · refine absurd ?_ h
        simp only [bufKeys, List.map_cons, List.mem_cons]
        exact Or.inl hk.symm
      · have h' : p ∉ bufKeys rest := by
          intro hm
          refine h ?_
          simp only [bufKeys, List.map_cons, List.mem_cons]
          exact Or.inr hm
        have heq := ih h'
        simp only [bufKeys] at heq
        simp [setBuf, hk, bufKeys, heq]

theorem nodup_bufKeys_setBuf (bs : List (String × MessageBuffer)) (p : String)
    (v : MessageBuffer) (h : (bufKeys bs).Nodup) : (bufKeys (setBuf bs p v)).Nodup := by
  by_cases hm : p ∈ bufKeys bs
  · rwa [bufKeys_setBuf_of_mem bs p v hm]
  · rw [bufKeys_setBuf_of_not_mem bs p v hm]
    simpa [List.nodup_append] using ⟨h, fun hc => hm hc⟩

theorem bufKeys_delBuf_sublist (bs : List (String × MessageBuffer)) (p : String) :
    (bufKeys (delBuf bs p)).Sublist (bufKeys bs) := by
  induction bs with
  | nil => simp [delBuf, bufKeys]
  | cons kv rest ih =>
      by_cases h : kv.1 = p
      · simpa [delBuf, h, bufKeys] using ih.trans (List.sublist_cons_self _ _)
      · simpa [delBuf, h, bufKeys] using ih.cons₂ kv.1

theorem nodup_bufKeys_delBuf (bs : List (String × MessageBuffer)) (p : String)
    (h : (bufKeys bs).Nodup) : (bufKeys (delBuf bs p)).Nodup :=
  (bufKeys_delBuf_sublist bs p).nodup h

/-! ### Lemmas about the task-list operations -/

theorem modifyTask_get?_self (ts : List TimerTask) (i : Nat) (f : TimerTask → TimerTask) :
    (modifyTask ts i f).get? i = (ts.get? i).map f := by
  induction ts generalizing i with
  | nil => cases i <;> simp [modifyTask]
  | cons tk rest ih =>
      cases i with
      | zero => simp [modifyTask]
      | succ n => simpa [modifyTask] using ih n

theorem modifyTask_get?_ne (ts : List TimerTask) (i j : Nat) (f : TimerTask → TimerTask)
    (h : j ≠ i) : (modifyTask ts i f).get? j = ts.get? j := by
  induction ts generalizing i j with
  | nil => cases i <;> simp [modifyTask]
  | cons tk rest ih =>
      cases i with
      | zero => cases j with
          | zero => exact absurd rfl h
          | succ m => simp [modifyTask]
      | succ n => cases j with
          | zero => simp [modifyTask]
          | succ m => simpa [modifyTask] using ih n m (fun e => h (by simp [e]))

theorem modifyTask_length (ts : List TimerTask) (i : Nat) (f : TimerTask → TimerTask) :
    (modifyTask ts i f).length = ts.length := by
  induction ts generalizing i with
  | nil => simp [modifyTask]
  | cons tk rest ih => cases i <;> simp [modifyTask, ih]

theorem get?_lt_length {ts : List TimerTask} {n : Nat} {a : TimerTask}
    (h : ts.get? n = some a) : n < ts.length := by
  obtain ⟨hlt, -⟩ := List.get?_eq_some.mp h
  exact hlt

theorem get?_append_left_task {ts ts' : List TimerTask} {n : Nat} (h : n < ts.length) :
    (ts ++ ts').get? n = ts.get? n := by
  simp [List.get?_eq_getElem?, List.getElem?_append_left h]

theorem get?_snoc_length (ts : List TimerTask) (a : TimerTask) :
    (ts ++ [a]).get? ts.length = some a := by
  simp [List.get?_eq_getElem?]

theorem cancelTask_get?_ne (ts : List TimerTask) (i j : Nat) (h : j ≠ i) :
    (cancelTask ts i).get? j = ts.get? j :=
  modifyTask_get?_ne ts i j _ h

theorem cancelTask_length (ts : List TimerTask) (i : Nat) :
    (cancelTask ts i).length = ts.length :=
  modifyTask_length ts i _

/-- What `Task.cancel()` does to the task it targets. -/
theorem cancelTask_get?_self (ts : List TimerTask) (i : Nat) :
    (cancelTask ts i).get? i = (ts.get? i).map (fun tk =>
      match tk.status with
      | .sleeping => { tk with status := .cancelled }
      | .running => { tk with status := .cancelled }
      | _ => tk) :=
  modifyTask_get?_self ts i _

theorem get?_eq_none_of_ge {ts : List TimerTask} {j : Nat} (h : ts.length ≤ j) :
    ts.get? j = none :=
  List.get?_eq_none.mpr h

theorem get?_snoc (ts : List TimerTask) (a : TimerTask) (j : Nat) :
    (ts ++ [a]).get? j =
      if j < ts.length then ts.get? j else if j = ts.length then some a else none := by
  by_cases h : j < ts.length
  · simp only [if_pos h]
    exact get?_append_left_task h
  · by_cases h2 : j = ts.length
    · subst h2
      simp only [if_neg h, if_pos rfl]
      exact get?_snoc_length ts a
    · simp only [if_neg h, if_neg h2]
      refine get?_eq_none_of_ge ?_
      simp only [List.length_append, List.length_cons, List.length_nil]
      omega

theorem cancelTask_not_sleeping (ts : List TimerTask) (i : Nat) (tk' : TimerTask)
    (h : (cancelTask ts i).get? i = some tk') : tk'.status ≠ .sleeping := by
  rw [cancelTask_get?_self] at h
  cases hts : ts.get? i with
  | none => rw [hts] at h; simp at h
  | some tk =>
      rw [hts] at h
      simp only [Option.map_some'] at h
      injection h with h
      rw [← h]
      cases htk : tk.status <;> simp [htk]

theorem cancelTask_fields (ts : List TimerTask) (i j : Nat) (tk' : TimerTask)
    (h : (cancelTask ts i).get? j = some tk') :
    ∃ tk, ts.get? j = some tk ∧ tk'.phone = tk.phone ∧ tk'.armed_at = tk.armed_at ∧
      (tk'.status = tk.status ∨ tk'.status = .cancelled) := by
  by_cases hji : j = i
  · subst hji
    rw [cancelTask_get?_self] at h
    cases hts : ts.get? j with
    | none => rw [hts] at h; simp at h
    | some tk =>
        rw [hts] at h
        simp only [Option.map_some'] at h
        injection h with h
        refine ⟨tk, rfl, ?_, ?_, ?_⟩ <;>
          (rw [← h]; cases htk : tk.status <;> simp [htk])
  · rw [cancelTask_get?_ne ts i j hji] at h
    exact ⟨tk', h, rfl, rfl, Or.inl rfl⟩

/-! ### Characterisations of `add_message` by whether the sender is tracked -/

/-- `add_message` for an untracked sender (the `phone_number not in
self.buffers` path): the fresh buffer's `timer_task` is `None`, so no
cancellation happens; the buffer ends up holding just the new fragment and
the handle of the fresh timer task. -/
theorem add_message_of_not_tracked {st : DebounceManager} {p x : String} {t : ℤ}
    (h : lookupBuf st.buffers p = none) :
    add_message st p x t =
      { st with
          buffers := setBuf st.buffers p
            (MessageBuffer.mk p [x] (some st.tasks.length) t t)
          tasks := st.tasks ++ [TimerTask.mk p t .sleeping none] } := by
  unfold add_message
  rw [h]
  simp [lookupBuf_setBuf_self, setBuf_setBuf]

/-- The task list after lines 84–86 of `add_message`: cancel the buffer's
current timer handle unless it is already done. -/
def rearmTasks (ts : List TimerTask) (bt : Option Nat) : List TimerTask :=
  match bt with
  | some i => if taskDone ts i then ts else cancelTask ts i
  | none => ts

/-- `add_message` for a tracked sender: cancel the buffer's timer if it is
not done, append the fragment, stamp `last_updated`, arm a fresh timer. -/
theorem add_message_of_tracked {st : DebounceManager} {p x : String} {t : ℤ}
    {b : MessageBuffer} (h : lookupBuf st.buffers p = some b) :
    add_message st p x t =
      { st with
          buffers := setBuf st.buffers p
            { b with
                messages := b.messages ++ [x]
                last_updated := t
                timer_task := some (rearmTasks st.tasks b.timer_task).length }
          tasks := rearmTasks st.tasks b.timer_task ++ [TimerTask.mk p t .sleeping none] } := by
  unfold add_message rearmTasks
  rw [h]
  simp [h]

theorem rearmTasks_length (ts : List TimerTask) (bt : Option Nat) :
    (rearmTasks ts bt).length = ts.length := by
  cases bt with
  | none => rfl
  | some i => by_cases hd : taskDone ts i = true <;>
      simp [rearmTasks, hd, cancelTask_length]

theorem rearmTasks_get?_ne (ts : List TimerTask) (i j : Nat) (h : j ≠ i) :
    (rearmTasks ts (some i)).get? j = ts.get? j := by
  by_cases hd : taskDone ts i = true
  · simp only [rearmTasks, if_pos hd]
  · simp only [rearmTasks, if_neg hd]
    exact cancelTask_get?_ne ts i j h

theorem rearmTasks_not_sleeping (ts : List TimerTask) (i : Nat) (tk' : TimerTask)
    (h : (rearmTasks ts (some i)).get? i = some tk') : tk'.status ≠ .sleeping := by
  by_cases hd : taskDone ts i = true
  · simp only [rearmTasks, if_pos hd] at h
    have hdone : tk'.status.isDone = true := by
      unfold taskDone at hd
      rw [h] at hd
      exact hd
    cases htk : tk'.status <;> simp [htk, TaskStatus.isDone] at hdone ⊢
  · simp only [rearmTasks, if_neg hd] at h
    exact cancelTask_not_sleeping ts i tk' h

theorem rearmTasks_fields (ts : List TimerTask) (i j : Nat) (tk' : TimerTask)
    (h : (rearmTasks ts (some i)).get? j = some tk') :
    ∃ tk, ts.get? j = some tk ∧ tk'.phone = tk.phone ∧ tk'.armed_at = tk.armed_at ∧
      (tk'.status = tk.status ∨ tk'.status = .cancelled) := by
  by_cases hd : taskDone ts i = true
  · simp only [rearmTasks, if_pos hd] at h
    exact ⟨tk', h, rfl, rfl, Or.inl rfl⟩
  · simp only [rearmTasks, if_neg hd] at h
    exact cancelTask_fields ts i j tk' h

/-! ### Characterisations of the remaining operations -/

/-- `_timer_callback` expiry when the task exists and its sender's buffer
is found. -/
theorem timerExpire_of_found {st : DebounceManager} {tid : Nat} {tk : TimerTask}
    {b : MessageBuffer} (h1 : st.tasks.get? tid = some tk)
    (h2 : lookupBuf st.buffers tk.phone = some b) :
    timerExpire st tid =
      { st with
          buffers := setBuf st.buffers tk.phone { b with messages := [] }
          tasks := modifyTask st.tasks tid
            (fun u => { u with status := .running
                               invokedWith := some (tk.phone, String.intercalate " " b.messages) })
          callbackLog := st.callbackLog ++
            [(tid, tk.phone, String.intercalate " " b.messages)] } := by
  unfold timerExpire
  rw [h1]
  simp only [h2]

/-- `_timer_callback` expiry when the buffer has disappeared (lines
116–119): warn and return. -/
theorem timerExpire_of_no_buffer {st : DebounceManager} {tid : Nat} {tk : TimerTask}
    (h1 : st.tasks.get? tid = some tk)
    (h2 : lookupBuf st.buffers tk.phone = none) :
    timerExpire st tid =
      { st with tasks := modifyTask st.tasks tid (fun u => { u with status := .done }) } := by
  unfold timerExpire
  rw [h1]
  simp only [h2]

/-- `clear_buffer` for an untracked sender is a no-op (line 169). -/
theorem clear_buffer_of_not_tracked {st : DebounceManager} {p : String}
    (h : lookupBuf st.buffers p = none) : clear_buffer st p = st := by
  unfold clear_buffer
  rw [h]

/-- `clear_buffer` for a tracked sender: cancel the buffer's timer
unconditionally and delete the buffer. -/
theorem clear_buffer_of_tracked {st : DebounceManager} {p : String} {b : MessageBuffer}
    (h : lookupBuf st.buffers p = some b) :
    clear_buffer st p =
      { st with
          tasks := match b.timer_task with
            | some i => cancelTask st.tasks i
            | none => st.tasks
          buffers := delBuf st.buffers p } := by
  unfold clear_buffer
  rw [h]

/-- Destructuring `taskStatus`. -/
theorem taskStatus_eq_some {ts : List TimerTask} {i : Nat} {s : TaskStatus}
    (h : taskStatus ts i = some s) : ∃ tk, ts.get? i = some tk ∧ tk.status = s := by
  unfold taskStatus at h
  cases hts : ts.get? i with
  | none => rw [hts] at h; simp at h
  | some tk =>
      rw [hts] at h
      simp only [Option.map_some', Option.some.injEq] at h
      exact ⟨tk, rfl, h⟩

/-! ### The global state invariant -/

/-- Well-formedness of a manager state, preserved by every scheduler
step: the dict has no duplicate keys; a buffer's `phone_number` matches
its key; after any completed `add_message` a buffer always holds a timer
handle; a buffer's handle refers to a task armed for that same sender;
every sleeping task is the *current* handle of its sender's buffer; a
buffer can have an empty fragment list only once its timer task has fired
(is running its callback or finished); callback-log entries refer to
existing tasks that are no longer sleeping, and no task appears twice in
the log. -/
structure Inv (st : DebounceManager) : Prop where
  nodup : (bufKeys st.buffers).Nodup
  keyMatch : ∀ p b, lookupBuf st.buffers p = some b → b.phone_number = p
  timerSome : ∀ p b, lookupBuf st.buffers p = some b → b.timer_task ≠ none
  timerRef : ∀ p b i, lookupBuf st.buffers p = some b → b.timer_task = some i →
    ∃ tk, st.tasks.get? i = some tk ∧ tk.phone = p
  sleepingCur : ∀ i tk, st.tasks.get? i = some tk → tk.status = .sleeping →
    ∃ b, lookupBuf st.buffers tk.phone = some b ∧ b.timer_task = some i
  emptyFired : ∀ p b i tk, lookupBuf st.buffers p = some b → b.messages = [] →
    b.timer_task = some i → st.tasks.get? i = some tk →
    tk.status = .running ∨ tk.status = .done
  logInRange : ∀ e ∈ st.callbackLog, e.1 < st.tasks.length
  logFired : ∀ e ∈ st.callbackLog, ∀ tk, st.tasks.get? e.1 = some tk → tk.status ≠ .sleeping
  logNodup : (st.callbackLog.map (fun e => e.1)).Nodup

theorem inv_init (d : ℤ) : Inv (DebounceManager.init d) := by
  refine ⟨?_, ?_, ?_, ?_, ?_, ?_, ?_, ?_, ?_⟩ <;>
    simp [DebounceManager.init, bufKeys, lookupBuf, List.get?]

theorem inv_set_now {st : DebounceManager} (t : ℤ) (h : Inv st) : Inv { st with now := t } :=
  ⟨h.nodup, h.keyMatch, h.timerSome, h.timerRef, h.sleepingCur, h.emptyFired,
    h.logInRange, h.logFired, h.logNodup⟩

theorem inv_add {st : DebounceManager} (p x : String) (t : ℤ) (h : Inv st) :
    Inv (add_message st p x t) := by
  cases hb : lookupBuf st.buffers p with
  | none =>
      rw [add_message_of_not_tracked hb]
      refine ⟨?_, ?_, ?_, ?_, ?_, ?_, ?_, ?_, ?_⟩
      · exact nodup_bufKeys_setBuf _ _ _ h.nodup
      · intro q c hq
        by_cases hqp : q = p
        · subst hqp
          rw [lookupBuf_setBuf_self] at hq
          injection hq with hq
          rw [← hq]
        · rw [lookupBuf_setBuf_ne _ _ _ _ hqp] at hq
          exact h.keyMatch q c hq
      · intro q c hq
        by_cases hqp : q = p
        · subst hqp
          rw [lookupBuf_setBuf_self] at hq
          injection hq with hq
          rw [← hq]
          simp
        · rw [lookupBuf_setBuf_ne _ _ _ _ hqp] at hq
          exact h.timerSome q c hq
      · intro q c i hq hi
        by_cases hqp : q = p
        · subst hqp
          rw [lookupBuf_setBuf_self] at hq
          injection hq with hq
          rw [← hq] at hi
          simp only [MessageBuffer.mk.injEq] at hi ⊢
          injection hi with hi
          subst hi
          exact ⟨_, get?_snoc_length _ _, rfl⟩
        · rw [lookupBuf_setBuf_ne _ _ _ _ hqp] at hq
          obtain ⟨tk, htk, hph⟩ := h.timerRef q c i hq hi
          refine ⟨tk, ?_, hph⟩
          rw [get?_append_left_task (get?_lt_length htk)]
          exact htk
      · intro j tk hj hsl
        rw [get?_snoc] at hj
        by_cases hlt : j < st.tasks.length
        · rw [if_pos hlt] at hj
          obtain ⟨c, hc, hci⟩ := h.sleepingCur j tk hj hsl
          have hphp : tk.phone ≠ p := by
            intro e
            rw [e, hb] at hc
            exact Option.noConfusion hc
          refine ⟨c, ?_, hci⟩
          rw [lookupBuf_setBuf_ne _ _ _ _ hphp]
          exact hc
        · rw [if_neg hlt] at hj
          by_cases heq : j = st.tasks.length
          · rw [if_pos heq] at hj
            injection hj with hj
            subst heq
            rw [← hj]
            exact ⟨_, lookupBuf_setBuf_self _ _ _, rfl⟩
          · rw [if_neg heq] at hj
            exact Option.noConfusion hj
      · intro q c i tk hq hmsg hi hti
        by_cases hqp : q = p
        · subst hqp
          rw [lookupBuf_setBuf_self] at hq
          injection hq with hq
          rw [← hq] at hmsg
          exact absurd hmsg (by simp)
        · rw [lookupBuf_setBuf_ne _ _ _ _ hqp] at hq
          obtain ⟨tk0, htk0, -⟩ := h.timerRef q c i hq hi
          rw [get?_snoc, if_pos (get?_lt_length htk0)] at hti
          exact h.emptyFired q c i tk hq hmsg hi hti
      · intro e he
        have := h.logInRange e he
        simp only [List.length_append, List.length_cons, List.length_nil]
        omega
      · intro e he tk htk
        rw [get?_snoc, if_pos (h.logInRange e he)] at htk
        exact h.logFired e he tk htk
      · exact h.logNodup
  | some b =>
      cases hbt : b.timer_task with
      | none => exact absurd hbt (h.timerSome p b hb)
      | some i0 =>
          obtain ⟨tk0, htk0, hph0⟩ := h.timerRef p b i0 hb hbt
          rw [add_message_of_tracked hb, hbt]
          have hL : (rearmTasks st.tasks (some i0)).length = st.tasks.length :=
            rearmTasks_length _ _
          refine ⟨?_, ?_, ?_, ?_, ?_, ?_, ?_, ?_, ?_⟩
          · exact nodup_bufKeys_setBuf _ _ _ h.nodup
          · intro q c hq
            by_cases hqp : q = p
            · subst hqp
              rw [lookupBuf_setBuf_self] at hq
              injection hq with hq
              rw [← hq]
              exact h.keyMatch _ b hb
            · rw [lookupBuf_setBuf_ne _ _ _ _ hqp] at hq
              exact h.keyMatch q c hq
          · intro q c hq
            by_cases hqp : q = p
            · subst hqp
              rw [lookupBuf_setBuf_self] at hq
              injection hq with hq
              rw [← hq]
              simp
            · rw [lookupBuf_setBuf_ne _ _ _ _ hqp] at hq
              exact h.timerSome q c hq
          · intro q c i hq hi
            by_cases hqp : q = p
            · subst hqp
              rw [lookupBuf_setBuf_self] at hq
              injection hq with hq
              rw [← hq] at hi
              simp only at hi
              injection hi with hi
              subst hi
              exact ⟨_, get?_snoc_length _ _, rfl⟩
            · rw [lookupBuf_setBuf_ne _ _ _ _ hqp] at hq
              obtain ⟨tk, htk, hph⟩ := h.timerRef q c i hq hi
              have hii0 : i ≠ i0 := by
                intro e
                rw [e, htk0] at htk
                injection htk with htk
                rw [htk] at hph0
                rw [hph0] at hph
                exact hqp hph.symm
              refine ⟨tk, ?_, hph⟩
              have hlt : i < (rearmTasks st.tasks (some i0)).length := by
                rw [hL]
                exact get?_lt_length htk
              rw [get?_snoc, if_pos hlt, rearmTasks_get?_ne _ _ _ hii0]
              exact htk
          · intro j tk hj hsl
            rw [get?_snoc] at hj
            by_cases hlt : j < (rearmTasks st.tasks (some i0)).length
            · rw [if_pos hlt] at hj
              by_cases hji : j = i0
              · subst hji
                exact absurd hsl (rearmTasks_not_sleeping _ _ _ hj)
              · rw [rearmTasks_get?_ne _ _ _ hji] at hj
                obtain ⟨c, hc, hci⟩ := h.sleepingCur j tk hj hsl
                have hphp : tk.phone ≠ p := by
                  intro e
                  rw [e, hb] at hc
                  injection hc with hc
                  rw [← hc] at hci
                  rw [hbt] at hci
                  injection hci with hci
                  exact hji hci.symm
                refine ⟨c, ?_, hci⟩
                rw [lookupBuf_setBuf_ne _ _ _ _ hphp]
                exact hc
            · rw [if_neg hlt] at hj
              by_cases heq : j = (rearmTasks st.tasks (some i0)).length
              · rw [if_pos heq] at hj
                injection hj with hj
                subst heq
                rw [← hj]
                exact ⟨_, lookupBuf_setBuf_self _ _ _, rfl⟩
              · rw [if_neg heq] at hj
                exact Option.noConfusion hj
          · intro q c i tk hq hmsg hi hti
            by_cases hqp : q = p
            · subst hqp
              rw [lookupBuf_setBuf_self] at hq
              injection hq with hq
              rw [← hq] at hmsg
              exact absurd hmsg (by simp)
            · rw [lookupBuf_setBuf_ne _ _ _ _ hqp] at hq
              obtain ⟨tkr, htkr, hphr⟩ := h.timerRef q c i hq hi
              have hii0 : i ≠ i0 := by
                intro e
                rw [e, htk0] at htkr
                injection htkr with htkr
                rw [htkr] at hph0
                rw [hph0] at hphr
                exact hqp hphr.symm
              have hlt : i < (rearmTasks st.tasks (some i0)).length := by
                rw [hL]
                exact get?_lt_length htkr
              rw [get?_snoc, if_pos hlt, rearmTasks_get?_ne _ _ _ hii0] at hti
              exact h.emptyFired q c i tk hq hmsg hi hti
          · intro e he
            have := h.logInRange e he
            simp only [List.length_append, List.length_cons, List.length_nil, hL]
            omega
          · intro e he tk htk
            have hlt : e.1 < (rearmTasks st.tasks (some i0)).length := by
              rw [hL]
              exact h.logInRange e he
            rw [get?_snoc, if_pos hlt] at htk
            by_cases hei : e.1 = i0
            · rw [hei] at htk
              exact rearmTasks_not_sleeping _ _ _ htk
            · rw [rearmTasks_get?_ne _ _ _ hei] at htk
              exact h.logFired e he tk htk
          · exact h.logNodup

theorem inv_expire {st : DebounceManager} (tid : Nat) (h : Inv st)
    (hsl : taskStatus st.tasks tid = some .sleeping) : Inv (timerExpire st tid) := by
  obtain ⟨tk, htk, hst⟩ := taskStatus_eq_some hsl
  obtain ⟨b, hb, hbt⟩ := h.sleepingCur tid tk htk hst
  have hnotin : ∀ e ∈ st.callbackLog, e.1 ≠ tid := by
    intro e he hetid
    exact h.logFired e he tk (by rw [hetid]; exact htk) hst
  rw [timerExpire_of_found htk hb]
  refine ⟨?_, ?_, ?_, ?_, ?_, ?_, ?_, ?_, ?_⟩
  · exact nodup_bufKeys_setBuf _ _ _ h.nodup
  · intro q c hq
    by_cases hqp : q = tk.phone
    · subst hqp
      rw [lookupBuf_setBuf_self] at hq
      injection hq with hq
      rw [← hq]
      exact h.keyMatch _ b hb
    · rw [lookupBuf_setBuf_ne _ _ _ _ hqp] at hq
      exact h.keyMatch q c hq
  · intro q c hq
    by_cases hqp : q = tk.phone
    · subst hqp
      rw [lookupBuf_setBuf_self] at hq
      injection hq with hq
      rw [← hq]
      exact h.timerSome _ b hb
    · rw [lookupBuf_setBuf_ne _ _ _ _ hqp] at hq
      exact h.timerSome q c hq
  · intro q c i hq hi
    have href : ∃ tk1, st.tasks.get? i = some tk1 ∧ tk1.phone = q := by
      by_cases hqp : q = tk.phone
      · subst hqp
        rw [lookupBuf_setBuf_self] at hq
        injection hq with hq
        rw [← hq] at hi
        exact h.timerRef _ b i hb hi
      · rw [lookupBuf_setBuf_ne _ _ _ _ hqp] at hq
        exact h.timerRef q c i hq hi
    obtain ⟨tk1, htk1, hph1⟩ := href
    by_cases hit : i = tid
    · subst hit
      rw [modifyTask_get?_self, htk1]
      exact ⟨_, rfl, hph1⟩
    · rw [modifyTask_get?_ne _ _ _ _ hit]
      exact ⟨tk1, htk1, hph1⟩
  · intro j tkj hj hslj
    by_cases hjt : j = tid
    · subst hjt
      rw [modifyTask_get?_self, htk] at hj
      simp only [Option.map_some'] at hj
      injection hj with hj
      rw [← hj] at hslj
      exact absurd hslj (by simp)
    · rw [modifyTask_get?_ne _ _ _ _ hjt] at hj
      obtain ⟨c, hc, hci⟩ := h.sleepingCur j tkj hj hslj
      by_cases hqp : tkj.phone = tk.phone
      · rw [hqp, hb] at hc
        injection hc with hc
        rw [← hc, hbt] at hci
        injection hci with hci
        exact absurd hci.symm hjt
      · refine ⟨c, ?_, hci⟩
        rw [lookupBuf_setBuf_ne _ _ _ _ hqp]
        exact hc
  · intro q c i tkq hq hmsg hi hti
    by_cases hqp : q = tk.phone
    · subst hqp
      rw [lookupBuf_setBuf_self] at hq
      injection hq with hq
      rw [← hq] at hi
      simp only at hi
      rw [hbt] at hi
      injection hi with hi
      subst hi
      rw [modifyTask_get?_self, htk] at hti
      simp only [Option.map_some'] at hti
      injection hti with hti
      rw [← hti]
      exact Or.inl rfl
    · rw [lookupBuf_setBuf_ne _ _ _ _ hqp] at hq
      obtain ⟨tkr, htkr, hphr⟩ := h.timerRef q c i hq hi
      have hit : i ≠ tid := by
        intro e
        rw [e, htk] at htkr
        injection htkr with htkr
        rw [htkr] at hqp
        exact hqp hphr.symm
      rw [modifyTask_get?_ne _ _ _ _ hit] at hti
      exact h.emptyFired q c i tkq hq hmsg hi hti
  · intro e he
    rw [List.mem_append] at he
    rw [modifyTask_length]
    rcases he with he | he
    · exact h.logInRange e he
    · simp only [List.mem_singleton] at he
      rw [he]
      exact get?_lt_length htk
  · intro e he tke htke
    rw [List.mem_append] at he
    rcases he with he | he
    · have het : e.1 ≠ tid := hnotin e he
      rw [modifyTask_get?_ne _ _ _ _ het] at htke
      exact h.logFired e he tke htke
    · simp only [List.mem_singleton] at he
      rw [he] at htke
      simp only at htke
      rw [modifyTask_get?_self, htk] at htke
      simp only [Option.map_some'] at htke
      injection htke with htke
      rw [← htke]
      simp
  · rw [List.map_append]
    simp only [List.map_cons, List.map_nil]
    rw [List.nodup_append]
    refine ⟨h.logNodup, List.nodup_singleton _, ?_⟩
    intro a ha hb2
    simp only [List.mem_singleton] at hb2
    rcases List.mem_map.mp ha with ⟨e, he, hea⟩
    exact hnotin e he (by rw [hea, hb2])

/-- Marking any existing task done (with any error log) preserves the
invariant: the task is no longer sleeping, which only weakens the
constraints. -/
theorem inv_mark_done {st : DebounceManager} (tid : Nat) (E : List String) (h : Inv st) :
    Inv { st with
            tasks := modifyTask st.tasks tid (fun u => { u with status := .done })
            errorLog := E } := by
  refine ⟨h.nodup, h.keyMatch, h.timerSome, ?_, ?_, ?_, ?_, ?_, h.logNodup⟩
  · intro q c i hq hi
    obtain ⟨tk1, htk1, hph1⟩ := h.timerRef q c i hq hi
    by_cases hit : i = tid
    · subst hit
      rw [modifyTask_get?_self, htk1]
      exact ⟨_, rfl, hph1⟩
    · rw [modifyTask_get?_ne _ _ _ _ hit]
      exact ⟨tk1, htk1, hph1⟩
  · intro j tkj hj hslj
    by_cases hjt : j = tid
    · subst hjt
      rw [modifyTask_get?_self] at hj
      cases hts : st.tasks.get? j with
      | none => rw [hts] at hj; exact Option.noConfusion hj
      | some tk1 =>
          rw [hts] at hj
          simp only [Option.map_some'] at hj
          injection hj with hj
          rw [← hj] at hslj
          exact absurd hslj (by simp)
    · rw [modifyTask_get?_ne _ _ _ _ hjt] at hj
      exact h.sleepingCur j tkj hj hslj
  · intro q c i tkq hq hmsg hi hti
    by_cases hit : i = tid
    · subst hit
      rw [modifyTask_get?_self] at hti
      cases hts : st.tasks.get? i with
      | none => rw [hts] at hti; exact Option.noConfusion hti
      | some tk1 =>
          rw [hts] at hti
          simp only [Option.map_some'] at hti
          injection hti with hti
          rw [← hti]
          exact Or.inr rfl
    · rw [modifyTask_get?_ne _ _ _ _ hit] at hti
      exact h.emptyFired q c i tkq hq hmsg hi hti
  · intro e he
    rw [modifyTask_length]
    exact h.logInRange e he
  · intro e he tke htke
    by_cases het : e.1 = tid
    · rw [het, modifyTask_get?_self] at htke
      cases hts : st.tasks.get? tid with
      | none => rw [hts] at htke; exact Option.noConfusion htke
      | some tk1 =>
          rw [hts] at htke
          simp only [Option.map_some'] at htke
          injection htke with htke
          rw [← htke]
          simp
    · rw [modifyTask_get?_ne _ _ _ _ het] at htke
      exact h.logFired e he tke htke

/-- `timerFinish` when the task does not exist. -/
theorem timerFinish_of_no_task {st : DebounceManager} {tid : Nat}
    (cbFail : String → String → Bool) (h1 : st.tasks.get? tid = none) :
    timerFinish cbFail st tid = st := by
  unfold timerFinish
  rw [h1]

/-- Characterisation of `timerFinish` at an existing task: the task is
marked done; the error log grows by the sender exactly when the awaited
callback raised. -/
theorem timerFinish_char {st : DebounceManager} {tid : Nat} {tk : TimerTask}
    (cbFail : String → String → Bool) (h1 : st.tasks.get? tid = some tk) :
    timerFinish cbFail st tid =
      { st with
          tasks := modifyTask st.tasks tid (fun u => { u with status := .done })
          errorLog := match tk.invokedWith with
            | none => st.errorLog
            | some px =>
                if cbFail px.1 px.2 then st.errorLog ++ [px.1] else st.errorLog } := by
  unfold timerFinish callbackRun
  rw [h1]
  cases hiw : tk.invokedWith with
  | none => simp only [hiw]
  | some px =>
      by_cases hcb : cbFail px.1 px.2 = true
      · simp only [hiw, if_pos hcb]
      · simp only [hiw, if_neg hcb]

theorem inv_finish {st : DebounceManager} (cbFail : String → String → Bool) (tid : Nat)
    (h : Inv st) : Inv (timerFinish cbFail st tid) := by
  cases hts : st.tasks.get? tid with
  | none =>
      rw [timerFinish_of_no_task cbFail hts]
      exact h
  | some tk =>
      rw [timerFinish_char cbFail hts]
      exact inv_mark_done tid _ h

theorem inv_clear {st : DebounceManager} (p : String) (h : Inv st) :
    Inv (clear_buffer st p) := by
  cases hb : lookupBuf st.buffers p with
  | none => rw [clear_buffer_of_not_tracked hb]; exact h
  | some b =>
      cases hbt : b.timer_task with
      | none => exact absurd hbt (h.timerSome p b hb)
      | some i0 =>
          obtain ⟨tk0, htk0, hph0⟩ := h.timerRef p b i0 hb hbt
          rw [clear_buffer_of_tracked hb, hbt]
          refine ⟨?_, ?_, ?_, ?_, ?_, ?_, ?_, ?_, ?_⟩
          · exact nodup_bufKeys_delBuf _ _ h.nodup
          · intro q c hq
            by_cases hqp : q = p
            · subst hqp
              rw [lookupBuf_delBuf_self] at hq
              exact Option.noConfusion hq
            · rw [lookupBuf_delBuf_ne _ _ _ hqp] at hq
              exact h.keyMatch q c hq
          · intro q c hq
            by_cases hqp : q = p
            · subst hqp
              rw [lookupBuf_delBuf_self] at hq
              exact Option.noConfusion hq
            · rw [lookupBuf_delBuf_ne _ _ _ hqp] at hq
              exact h.timerSome q c hq
          · intro q c i hq hi
            by_cases hqp : q = p
            · subst hqp
              rw [lookupBuf_delBuf_self] at hq
              exact Option.noConfusion hq
            · rw [lookupBuf_delBuf_ne _ _ _ hqp] at hq
              obtain ⟨tk1, htk1, hph1⟩ := h.timerRef q c i hq hi
              have hii0 : i ≠ i0 := by
                intro e
                rw [e, htk0] at htk1
                injection htk1 with htk1
                rw [htk1] at hph0
                rw [hph0] at hph1
                exact hqp hph1.symm
              rw [cancelTask_get?_ne _ _ _ hii0]
              exact ⟨tk1, htk1, hph1⟩
          · intro j tkj hj hslj
            by_cases hji : j = i0
            · subst hji
              exact absurd hslj (cancelTask_not_sleeping _ _ _ hj)
            · rw [cancelTask_get?_ne _ _ _ hji] at hj
              obtain ⟨c, hc, hci⟩ := h.sleepingCur j tkj hj hslj
              by_cases hqp : tkj.phone = p
              · rw [hqp, hb] at hc
                injection hc with hc
                rw [← hc, hbt] at hci
                injection hci with hci
                exact absurd hci.symm hji
              · refine ⟨c, ?_, hci⟩
                rw [lookupBuf_delBuf_ne _ _ _ hqp]
                exact hc
          · intro q c i tkq hq hmsg hi hti
            by_cases hqp : q = p
            · subst hqp
              rw [lookupBuf_delBuf_self] at hq
              exact Option.noConfusion hq
            · rw [lookupBuf_delBuf_ne _ _ _ hqp] at hq
              obtain ⟨tkr, htkr, hphr⟩ := h.timerRef q c i hq hi
              have hii0 : i ≠ i0 := by
                intro e
                rw [e, htk0] at htkr
                injection htkr with htkr
                rw [htkr] at hph0
                rw [hph0] at hphr
                exact hqp hphr.symm
              rw [cancelTask_get?_ne _ _ _ hii0] at hti
              exact h.emptyFired q c i tkq hq hmsg hi hti
          · intro e he
            rw [cancelTask_length]
            exact h.logInRange e he
          · intro e he tke htke
            by_cases hei : e.1 = i0
            · rw [hei] at htke
              exact cancelTask_not_sleeping _ _ _ htke
            · rw [cancelTask_get?_ne _ _ _ hei] at htke
              exact h.logFired e he tke htke
          · exact h.logNodup

theorem inv_step (cbFail : String → String → Bool) (st : DebounceManager) (e : Event)
    (h : Inv st) : Inv (step cbFail st e) := by
  cases e with
  | add p x t =>
      simp only [step]
      by_cases hc : st.now ≤ t
      · rw [if_pos hc]
        exact inv_set_now t (inv_add p x t h)
      · rw [if_neg hc]
        exact h
  | expire i t =>
      simp only [step]
      by_cases hc : st.now ≤ t ∧ taskStatus st.tasks i = some .sleeping ∧
          armedAt st.tasks i + st.debounce_seconds ≤ t
      · rw [if_pos hc]
        exact inv_set_now t (inv_expire i h hc.2.1)
      · rw [if_neg hc]
        exact h
  | finish i t =>
      simp only [step]
      by_cases hc : st.now ≤ t ∧ taskStatus st.tasks i = some .running
      · rw [if_pos hc]
        exact inv_set_now t (inv_finish cbFail i h)
      · rw [if_neg hc]
        exact h
  | clear p t =>
      simp only [step]
      by_cases hc : st.now ≤ t
      · rw [if_pos hc]
        exact inv_set_now t (inv_clear p h)
      · rw [if_neg hc]
        exact h

theorem run_cons (cbFail : String → String → Bool) (st : DebounceManager) (e : Event)
    (es : List Event) : run cbFail st (e :: es) = run cbFail (step cbFail st e) es := rfl

theorem inv_run (cbFail : String → String → Bool) (τ : List Event) (st : DebounceManager)
    (h : Inv st) : Inv (run cbFail st τ) := by
  induction τ generalizing st with
  | nil => exact h
  | cons e es ih =>
      rw [run_cons]
      exact ih _ (inv_step cbFail st e h)

theorem reachable_inv {st : DebounceManager} (h : Reachable st) : Inv st := by
  obtain ⟨d, cbFail, τ, rfl⟩ := h
  exact inv_run cbFail τ _ (inv_init d)

/-! ### Trace observations -/

/-- The `add` calls a trace issues for sender `S`, as (text, time) pairs
in order. -/
def addsFor (S : String) : List Event → List (String × ℤ)
  | [] => []
  | .add p x t :: es => if p = S then (x, t) :: addsFor S es else addsFor S es
  | _ :: es => addsFor S es

/-- `true` when the trace contains no `clear_buffer` call for `S`. -/
def noClearFor (S : String) : List Event → Bool
  | [] => true
  | .clear p _ :: es => if p = S then false else noClearFor S es
  | _ :: es => noClearFor S es

/-- `true` when the events occur at nondecreasing times, all at or after
`c` (real schedules satisfy this by definition of time). -/
def timeMono : ℤ → List Event → Bool
  | _, [] => true
  | c, e :: es => decide (c ≤ e.time) && timeMono e.time es

/-- The aggregated texts delivered to the Trigger Callback for sender `S`,
in invocation order. -/
def callbacksFor (S : String) (log : List (Nat × String × String)) : List String :=
  log.filterMap (fun e => if e.2.1 = S then some e.2.2 else none)

/-- The callback invocations made by timer task `i`. -/
def entriesFor (i : Nat) (log : List (Nat × String × String)) :
    List (Nat × String × String) :=
  log.filter (fun e => e.1 == i)

/-- Arrival times starting from anchor `c` are nondecreasing and each gap
is strictly below the debounce duration `D`. -/
def chainGaps (D : ℤ) : ℤ → List (String × ℤ) → Prop
  | _, [] => True
  | c, a :: rest => c ≤ a.2 ∧ a.2 < c + D ∧ chainGaps D a.2 rest

/-- Internal inter-arrival gaps of a burst are all strictly below `D`. -/
def gapsChain (D : ℤ) : List (String × ℤ) → Prop
  | [] => True
  | a :: rest => chainGaps D a.2 rest

def chainGapsDecAux (D : ℤ) : (c : ℤ) → (l : List (String × ℤ)) → Decidable (chainGaps D c l)
  | _, [] => isTrue trivial
  | c, a :: rest =>
      have : Decidable (chainGaps D a.2 rest) := chainGapsDecAux D a.2 rest
      inferInstanceAs (Decidable (c ≤ a.2 ∧ a.2 < c + D ∧ chainGaps D a.2 rest))

instance (D c : ℤ) (l : List (String × ℤ)) : Decidable (chainGaps D c l) :=
  chainGapsDecAux D c l

instance (D : ℤ) (l : List (String × ℤ)) : Decidable (gapsChain D l) :=
  match l with
  | [] => isTrue trivial
  | a :: rest => inferInstanceAs (Decidable (chainGaps D a.2 rest))

/-- Time of the last arrival of a burst (anchor `c` if empty). -/
def lastT : ℤ → List (String × ℤ) → ℤ
  | c, [] => c
  | _, a :: rest => lastT a.2 rest

/-- Time of the last arrival of a burst. -/
def lastTime (xs : List (String × ℤ)) : ℤ := lastT 0 xs

/-- Time of the first arrival of a burst. -/
def firstTime : List (String × ℤ) → ℤ
  | [] => 0
  | a :: _ => a.2

/-- The canonical schedule of one idle period: the burst's `add` calls
followed by the expiry of the last armed timer one debounce duration after
the last arrival. -/
def canonicalTrace (S : String) (D : ℤ) (xs : List (String × ℤ)) : List Event :=
  xs.map (fun a => Event.add S a.1 a.2) ++ [Event.expire (xs.length - 1) (lastTime xs + D)]

/-! ### Small trace lemmas -/

theorem timeMono_cons {c : ℤ} {e : Event} {es : List Event}
    (h : timeMono c (e :: es) = true) : c ≤ e.time ∧ timeMono e.time es = true := by
  simp only [timeMono, Bool.and_eq_true, decide_eq_true_eq] at h
  exact h

theorem timeMono_weaken {c c' : ℤ} {τ : List Event} (hcc : c' ≤ c)
    (h : timeMono c τ = true) : timeMono c' τ = true := by
  cases τ with
  | nil => rfl
  | cons e es =>
      obtain ⟨h1, h2⟩ := timeMono_cons h
      simp only [timeMono, Bool.and_eq_true, decide_eq_true_eq]
      exact ⟨le_trans hcc h1, h2⟩

theorem timeMono_le_of_mem {c : ℤ} {τ : List Event} {e : Event}
    (h : timeMono c τ = true) (hm : e ∈ τ) : c ≤ e.time := by
  induction τ generalizing c with
  | nil => cases hm
  | cons e0 es ih =>
      obtain ⟨h1, h2⟩ := timeMono_cons h
      rcases List.mem_cons.mp hm with rfl | hm2
      · exact h1
      · exact le_trans h1 (ih h2 hm2)

theorem addsFor_head_mem {S : String} {x : String} {t : ℤ} :
    ∀ {τ : List Event} {rem : List (String × ℤ)},
      addsFor S τ = (x, t) :: rem → Event.add S x t ∈ τ := by
  intro τ
  induction τ with
  | nil => intro rem h; simp [addsFor] at h
  | cons e es ih =>
      intro rem h
      cases e with
      | add p x' t' =>
          by_cases hp : p = S
          · rw [addsFor, if_pos hp] at h
            injection h with h1 h2
            injection h1 with hx ht
            subst hp
            subst hx
            subst ht
            exact List.mem_cons_self _ _
          · rw [addsFor, if_neg hp] at h
            exact List.mem_cons_of_mem _ (ih h)
      | expire i t' => exact List.mem_cons_of_mem _ (ih h)
      | finish i t' => exact List.mem_cons_of_mem _ (ih h)
      | clear p t' => exact List.mem_cons_of_mem _ (ih h)

theorem callbacksFor_append (S : String) (log log' : List (Nat × String × String)) :
    callbacksFor S (log ++ log') = callbacksFor S log ++ callbacksFor S log' := by
  simp [callbacksFor, List.filterMap_append]

theorem callbacksFor_single_ne (S p : String) (i : Nat) (x : String) (h : p ≠ S) :
    callbacksFor S [(i, p, x)] = [] := by
  simp [callbacksFor, h]

theorem callbacksFor_single_self (S : String) (i : Nat) (x : String) :
    callbacksFor S [(i, S, x)] = [x] := by
  simp [callbacksFor]

theorem entriesFor_append_ne (i j : Nat) (p x : String)
    (log : List (Nat × String × String)) (h : j ≠ i) :
    entriesFor i (log ++ [(j, p, x)]) = entriesFor i log := by
  simp [entriesFor, List.filter_append, h]

/-! ### Idle-period phases for a fixed sender

`PhaseA`: no state for the sender exists yet (before its first `add`).
`PhaseB`: an idle period is open — the sender's buffer holds the fragments
received so far and exactly one sleeping timer (`tid`, armed at `ta`) for
the sender exists.  `PhaseC`: the period has flushed — exactly one
callback was invoked for the sender and no sleeping timer for it remains. -/

def PhaseA (S : String) (st : DebounceManager) : Prop :=
  lookupBuf st.buffers S = none ∧
  (∀ i tk, st.tasks.get? i = some tk → tk.phone ≠ S) ∧
  callbacksFor S st.callbackLog = []

def PhaseB (S : String) (msgs : List String) (ta : ℤ) (tid : Nat)
    (st : DebounceManager) : Prop :=
  (∃ b, lookupBuf st.buffers S = some b ∧ b.messages = msgs ∧ b.timer_task = some tid) ∧
  (∃ tk, st.tasks.get? tid = some tk ∧ tk.phone = S ∧ tk.status = .sleeping ∧
     tk.armed_at = ta) ∧
  (∀ j tk, st.tasks.get? j = some tk → tk.phone = S → j ≠ tid → tk.status ≠ .sleeping) ∧
  callbacksFor S st.callbackLog = []

def PhaseC (S : String) (agg : String) (st : DebounceManager) : Prop :=
  callbacksFor S st.callbackLog = [agg] ∧
  (∀ j tk, st.tasks.get? j = some tk → tk.phone = S → tk.status ≠ .sleeping)

/-! ### Frame lemmas: operations for other senders do not disturb `S` -/

theorem cancelTask_sleeping_same (ts : List TimerTask) (i j : Nat) (tk' : TimerTask)
    (h : (cancelTask ts i).get? j = some tk') (hs : tk'.status = .sleeping) :
    ts.get? j = some tk' := by
  by_cases hji : j = i
  · subst hji
    exact absurd hs (cancelTask_not_sleeping ts j tk' h)
  · rw [cancelTask_get?_ne _ _ _ hji] at h
    exact h

theorem rearmTasks_sleeping_same (ts : List TimerTask) (i j : Nat) (tk' : TimerTask)
    (h : (rearmTasks ts (some i)).get? j = some tk') (hs : tk'.status = .sleeping) :
    ts.get? j = some tk' := by
  by_cases hd : taskDone ts i = true
  · simp only [rearmTasks, if_pos hd] at h
    exact h
  · simp only [rearmTasks, if_neg hd] at h
    exact cancelTask_sleeping_same ts i j tk' h hs

theorem add_message_callbackLog (st : DebounceManager) (p x : String) (t : ℤ) :
    (add_message st p x t).callbackLog = st.callbackLog := rfl

theorem timerFinish_buffers (cbFail : String → String → Bool) (st : DebounceManager)
    (tid : Nat) : (timerFinish cbFail st tid).buffers = st.buffers := by
  cases hts : st.tasks.get? tid with
  | none => rw [timerFinish_of_no_task cbFail hts]
  | some tk => rw [timerFinish_char cbFail hts]

theorem timerFinish_callbackLog (cbFail : String → String → Bool) (st : DebounceManager)
    (tid : Nat) : (timerFinish cbFail st tid).callbackLog = st.callbackLog := by
  cases hts : st.tasks.get? tid with
  | none => rw [timerFinish_of_no_task cbFail hts]
  | some tk => rw [timerFinish_char cbFail hts]

theorem clear_buffer_callbackLog (st : DebounceManager) (p : String) :
    (clear_buffer st p).callbackLog = st.callbackLog := by
  cases hb : lookupBuf st.buffers p with
  | none => rw [clear_buffer_of_not_tracked hb]
  | some b => rw [clear_buffer_of_tracked hb]

/-- `add_message` for `p ≠ S` leaves all of `S`'s state untouched. -/
theorem frame_add {st : DebounceManager} {S p : String} (x : String) (t : ℤ)
    (hInv : Inv st) (hp : p ≠ S) :
    lookupBuf (add_message st p x t).buffers S = lookupBuf st.buffers S ∧
    (∀ j tk, st.tasks.get? j = some tk → tk.phone = S → tk.status = .sleeping →
       (add_message st p x t).tasks.get? j = some tk) ∧
    (∀ j tk', (add_message st p x t).tasks.get? j = some tk' → tk'.phone = S →
       tk'.status = .sleeping → st.tasks.get? j = some tk') ∧
    (∀ j tk', (add_message st p x t).tasks.get? j = some tk' → tk'.phone = S →
       ∃ tk, st.tasks.get? j = some tk ∧ tk.phone = S) := by
  have hSp : S ≠ p := fun e => hp e.symm
  cases hb : lookupBuf st.buffers p with
  | none =>
      rw [add_message_of_not_tracked hb]
      refine ⟨lookupBuf_setBuf_ne _ _ _ _ hSp, ?_, ?_, ?_⟩
      · intro j tk hj hph hsl
        rw [get?_snoc, if_pos (get?_lt_length hj)]
        exact hj
      · intro j tk' hj hph hsl
        rw [get?_snoc] at hj
        by_cases hlt : j < st.tasks.length
        · rw [if_pos hlt] at hj
          exact hj
        · rw [if_neg hlt] at hj
          by_cases heq : j = st.tasks.length
          · rw [if_pos heq] at hj
            injection hj with hj
            rw [← hj] at hph
            exact absurd hph.symm hSp
          · rw [if_neg heq] at hj
            exact Option.noConfusion hj
      · intro j tk' hj hph
        rw [get?_snoc] at hj
        by_cases hlt : j < st.tasks.length
        · rw [if_pos hlt] at hj
          exact ⟨tk', hj, hph⟩
        · rw [if_neg hlt] at hj
          by_cases heq : j = st.tasks.length
          · rw [if_pos heq] at hj
            injection hj with hj
            rw [← hj] at hph
            exact absurd hph.symm hSp
          · rw [if_neg heq] at hj
            exact Option.noConfusion hj
  | some b =>
      cases hbt : b.timer_task with
      | none => exact absurd hbt (hInv.timerSome p b hb)
      | some i0 =>
          obtain ⟨tk0, htk0, hph0⟩ := hInv.timerRef p b i0 hb hbt
          rw [add_message_of_tracked hb, hbt]
          have hL : (rearmTasks st.tasks (some i0)).length = st.tasks.length :=
            rearmTasks_length _ _
          refine ⟨lookupBuf_setBuf_ne _ _ _ _ hSp, ?_, ?_, ?_⟩
          · intro j tk hj hph hsl
            have hji0 : j ≠ i0 := by
              intro e
              rw [e, htk0] at hj
              injection hj with hj
              rw [hj] at hph0
              rw [hph] at hph0
              exact hp hph0.symm
            have hlt : j < (rearmTasks st.tasks (some i0)).length := by
              rw [hL]
              exact get?_lt_length hj
            rw [get?_snoc, if_pos hlt, rearmTasks_get?_ne _ _ _ hji0]
            exact hj
          · intro j tk' hj hph hsl
            rw [get?_snoc] at hj
            by_cases hlt : j < (rearmTasks st.tasks (some i0)).length
            · rw [if_pos hlt] at hj
              exact rearmTasks_sleeping_same _ _ _ _ hj hsl
            · rw [if_neg hlt] at hj
              by_cases heq : j = (rearmTasks st.tasks (some i0)).length
              · rw [if_pos heq] at hj
                injection hj with hj
                rw [← hj] at hph
                exact absurd hph.symm hSp
              · rw [if_neg heq] at hj
                exact Option.noConfusion hj
          · intro j tk' hj hph
            rw [get?_snoc] at hj
            by_cases hlt : j < (rearmTasks st.tasks (some i0)).length
            · rw [if_pos hlt] at hj
              obtain ⟨tk, htk, hfph, -⟩ := rearmTasks_fields _ _ _ _ hj
              exact ⟨tk, htk, by rw [← hfph]; exact hph⟩
            · rw [if_neg hlt] at hj
              by_cases heq : j = (rearmTasks st.tasks (some i0)).length
              · rw [if_pos heq] at hj
                injection hj with hj
                rw [← hj] at hph
                exact absurd hph.symm hSp
              · rw [if_neg heq] at hj
                exact Option.noConfusion hj

/-- A timer expiry for a task of another sender leaves `S`'s state
untouched and logs no callback for `S`. -/
theorem frame_expire {st : DebounceManager} {S : String} {tid : Nat} {tk : TimerTask}
    (htk : st.tasks.get? tid = some tk) (hph : tk.phone ≠ S) :
    lookupBuf (timerExpire st tid).buffers S = lookupBuf st.buffers S ∧
    callbacksFor S (timerExpire st tid).callbackLog = callbacksFor S st.callbackLog ∧
    (∀ j tkj, st.tasks.get? j = some tkj → tkj.phone = S → tkj.status = .sleeping →
       (timerExpire st tid).tasks.get? j = some tkj) ∧
    (∀ j tk', (timerExpire st tid).tasks.get? j = some tk' → tk'.phone = S →
       tk'.status = .sleeping → st.tasks.get? j = some tk') ∧
    (∀ j tk', (timerExpire st tid).tasks.get? j = some tk' → tk'.phone = S →
       ∃ tkj, st.tasks.get? j = some tkj ∧ tkj.phone = S) := by
  have hSp : S ≠ tk.phone := fun e => hph e.symm
  have hjneq : ∀ j (tkj : TimerTask), st.tasks.get? j = some tkj → tkj.phone = S →
      j ≠ tid := by
    intro j tkj hj hphj e
    rw [e, htk] at hj
    injection hj with hj
    rw [← hj] at hphj
    exact hph hphj
  cases hb : lookupBuf st.buffers tk.phone with
  | none =>
      rw [timerExpire_of_no_buffer htk hb]
      refine ⟨rfl, rfl, ?_, ?_, ?_⟩
      · intro j tkj hj hphj hsl
        rw [modifyTask_get?_ne _ _ _ _ (hjneq j tkj hj hphj)]
        exact hj
      · intro j tk' hj hphj hsl
        by_cases hjt : j = tid
        · subst hjt
          rw [modifyTask_get?_self, htk] at hj
          simp only [Option.map_some'] at hj
          injection hj with hj
          rw [← hj] at hsl
          exact absurd hsl (by simp)
        · rw [modifyTask_get?_ne _ _ _ _ hjt] at hj
          exact hj
      · intro j tk' hj hphj
        by_cases hjt : j = tid
        · subst hjt
          rw [modifyTask_get?_self, htk] at hj
          simp only [Option.map_some'] at hj
          injection hj with hj
          rw [← hj] at hphj
          exact absurd hphj hph
        · rw [modifyTask_get?_ne _ _ _ _ hjt] at hj
          exact ⟨tk', hj, hphj⟩
  | some b =>
      rw [timerExpire_of_found htk hb]
      refine ⟨lookupBuf_setBuf_ne _ _ _ _ hSp, ?_, ?_, ?_, ?_⟩
      · rw [callbacksFor_append, callbacksFor_single_ne _ _ _ _ hph, List.append_nil]
      · intro j tkj hj hphj hsl
        rw [modifyTask_get?_ne _ _ _ _ (hjneq j tkj hj hphj)]
        exact hj
      · intro j tk' hj hphj hsl
        by_cases hjt : j = tid
        · subst hjt
          rw [modifyTask_get?_self, htk] at hj
          simp only [Option.map_some'] at hj
          injection hj with hj
          rw [← hj] at hsl
          exact absurd hsl (by simp)
        · rw [modifyTask_get?_ne _ _ _ _ hjt] at hj
          exact hj
      · intro j tk' hj hphj
        by_cases hjt : j = tid
        · subst hjt
          rw [modifyTask_get?_self, htk] at hj
          simp only [Option.map_some'] at hj
          injection hj with hj
          rw [← hj] at hphj
          exact absurd hphj hph
        · rw [modifyTask_get?_ne _ _ _ _ hjt] at hj
          exact ⟨tk', hj, hphj⟩

/-- Completion of an awaited callback leaves buffers, the callback log and
every sleeping task untouched. -/
theorem frame_finish (cbFail : String → String → Bool) {st : DebounceManager} {S : String}
    (tid : Nat) (hrun : taskStatus st.tasks tid = some .running) :
    (∀ j tkj, st.tasks.get? j = some tkj → tkj.status = .sleeping →
       (timerFinish cbFail st tid).tasks.get? j = some tkj) ∧
    (∀ j tk', (timerFinish cbFail st tid).tasks.get? j = some tk' →
       tk'.status = .sleeping → st.tasks.get? j = some tk') ∧
    (∀ j tk', (timerFinish cbFail st tid).tasks.get? j = some tk' → tk'.phone = S →
       ∃ tkj, st.tasks.get? j = some tkj ∧ tkj.phone = S) := by
  obtain ⟨tk, htk, hst⟩ := taskStatus_eq_some hrun
  rw [timerFinish_char cbFail htk]
  refine ⟨?_, ?_, ?_⟩
  · intro j tkj hj hsl
    have hjt : j ≠ tid := by
      intro e
      rw [e, htk] at hj
      injection hj with hj
      rw [hj] at hst
      rw [hsl] at hst
      exact TaskStatus.noConfusion hst
    rw [modifyTask_get?_ne _ _ _ _ hjt]
    exact hj
  · intro j tk' hj hsl
    by_cases hjt : j = tid
    · subst hjt
      rw [modifyTask_get?_self, htk] at hj
      simp only [Option.map_some'] at hj
      injection hj with hj
      rw [← hj] at hsl
      exact absurd hsl (by simp)
    · rw [modifyTask_get?_ne _ _ _ _ hjt] at hj
      exact hj
  · intro j tk' hj hphj
    by_cases hjt : j = tid
    · subst hjt
      rw [modifyTask_get?_self, htk] at hj
      simp only [Option.map_some'] at hj
      injection hj with hj
      refine ⟨tk, htk, ?_⟩
      rw [← hj] at hphj
      exact hphj
    · rw [modifyTask_get?_ne _ _ _ _ hjt] at hj
      exact ⟨tk', hj, hphj⟩

/-- `clear_buffer` for `p ≠ S` leaves all of `S`'s state untouched. -/
theorem frame_clear {st : DebounceManager} {S p : String} (hInv : Inv st) (hp : p ≠ S) :
    lookupBuf (clear_buffer st p).buffers S = lookupBuf st.buffers S ∧
    (∀ j tkj, st.tasks.get? j = some tkj → tkj.phone = S → tkj.status = .sleeping →
       (clear_buffer st p).tasks.get? j = some tkj) ∧
    (∀ j tk', (clear_buffer st p).tasks.get? j = some tk' → tk'.phone = S →
       tk'.status = .sleeping → st.tasks.get? j = some tk') ∧
    (∀ j tk', (clear_buffer st p).tasks.get? j = some tk' → tk'.phone = S →
       ∃ tkj, st.tasks.get? j = some tkj ∧ tkj.phone = S) := by
  have hSp : S ≠ p := fun e => hp e.symm
  cases hb : lookupBuf st.buffers p with
  | none =>
      rw [clear_buffer_of_not_tracked hb]
      exact ⟨rfl, fun j tkj hj _ _ => hj, fun j tk' hj _ _ => hj,
        fun j tk' hj hphj => ⟨tk', hj, hphj⟩⟩
  | some b =>
      cases hbt : b.timer_task with
      | none => exact absurd hbt (hInv.timerSome p b hb)
      | some i0 =>
          obtain ⟨tk0, htk0, hph0⟩ := hInv.timerRef p b i0 hb hbt
          rw [clear_buffer_of_tracked hb, hbt]
          refine ⟨lookupBuf_delBuf_ne _ _ _ hSp, ?_, ?_, ?_⟩
          · intro j tkj hj hphj hsl
            have hji0 : j ≠ i0 := by
              intro e
              rw [e, htk0] at hj
              injection hj with hj
              rw [hj] at hph0
              rw [hphj] at hph0
              exact hp hph0.symm
            rw [cancelTask_get?_ne _ _ _ hji0]
            exact hj
          · intro j tk' hj hphj hsl
            exact cancelTask_sleeping_same _ _ _ _ hj hsl
          · intro j tk' hj hphj
            obtain ⟨tkj, htkj, hfph, -⟩ := cancelTask_fields _ _ _ _ hj
            exact ⟨tkj, htkj, by rw [← hfph]; exact hphj⟩

/-! ### Phase preservation under steps that do not concern `S` -/

theorem step_now_le (cbFail : String → String → Bool) (st : DebounceManager) (e : Event)
    (h : st.now ≤ e.time) : (step cbFail st e).now ≤ e.time := by
  cases e with
  | add p x t =>
      simp only [step, Event.time] at h ⊢
      by_cases hg : st.now ≤ t
      · rw [if_pos hg]
      · rw [if_neg hg]; exact h
  | expire i t =>
      simp only [step, Event.time] at h ⊢
      by_cases hg : st.now ≤ t ∧ taskStatus st.tasks i = some .sleeping ∧
          armedAt st.tasks i + st.debounce_seconds ≤ t
      · rw [if_pos hg]
      · rw [if_neg hg]; exact h
  | finish i t =>
      simp only [step, Event.time] at h ⊢
      by_cases hg : st.now ≤ t ∧ taskStatus st.tasks i = some .running
      · rw [if_pos hg]
      · rw [if_neg hg]; exact h
  | clear p t =>
      simp only [step, Event.time] at h ⊢
      by_cases hg : st.now ≤ t
      · rw [if_pos hg]
      · rw [if_neg hg]; exact h

theorem phaseA_step (cbFail : String → String → Bool) {st : DebounceManager} {S : String}
    (e : Event) (hInv : Inv st) (hA : PhaseA S st)
    (hadd : ∀ x t, e ≠ Event.add S x t) : PhaseA S (step cbFail st e) := by
  obtain ⟨hA1, hA2, hA3⟩ := hA
  cases e with
  | add p x t =>
      have hp : p ≠ S := fun ee => hadd x t (by rw [ee])
      simp only [step]
      by_cases hg : st.now ≤ t
      · rw [if_pos hg]
        obtain ⟨f1, f3, f4, f5⟩ := frame_add (S := S) x t hInv hp
        refine ⟨?_, ?_, ?_⟩
        · show lookupBuf (add_message st p x t).buffers S = none
          rw [f1]; exact hA1
        · intro i tk hi hph
          obtain ⟨tk0, htk0, hph0⟩ := f5 i tk hi hph
          exact hA2 i tk0 htk0 hph0
        · show callbacksFor S (add_message st p x t).callbackLog = []
          rw [add_message_callbackLog]; exact hA3
      · rw [if_neg hg]; exact ⟨hA1, hA2, hA3⟩
  | expire i t =>
      simp only [step]
      by_cases hg : st.now ≤ t ∧ taskStatus st.tasks i = some .sleeping ∧
          armedAt st.tasks i + st.debounce_seconds ≤ t
      · rw [if_pos hg]
        obtain ⟨tk, htk, hsl⟩ := taskStatus_eq_some hg.2.1
        have hph : tk.phone ≠ S := hA2 i tk htk
        obtain ⟨f1, f2, f3, f4, f5⟩ := frame_expire (S := S) htk hph
        refine ⟨?_, ?_, ?_⟩
        · show lookupBuf (timerExpire st i).buffers S = none
          rw [f1]; exact hA1
        · intro j tkj hj hphj
          obtain ⟨tk0, htk0, hph0⟩ := f5 j tkj hj hphj
          exact hA2 j tk0 htk0 hph0
        · show callbacksFor S (timerExpire st i).callbackLog = []
          rw [f2]; exact hA3
      · rw [if_neg hg]; exact ⟨hA1, hA2, hA3⟩
  | finish i t =>
      simp only [step]
      by_cases hg : st.now ≤ t ∧ taskStatus st.tasks i = some .running
      · rw [if_pos hg]
        obtain ⟨f3, f4, f5⟩ := frame_finish cbFail (S := S) i hg.2
        refine ⟨?_, ?_, ?_⟩
        · show lookupBuf (timerFinish cbFail st i).buffers S = none
          rw [timerFinish_buffers]; exact hA1
        · intro j tkj hj hphj
          obtain ⟨tk0, htk0, hph0⟩ := f5 j tkj hj hphj
          exact hA2 j tk0 htk0 hph0
        · show callbacksFor S (timerFinish cbFail st i).callbackLog = []
          rw [timerFinish_callbackLog]; exact hA3
      · rw [if_neg hg]; exact ⟨hA1, hA2, hA3⟩
  | clear p t =>
      simp only [step]
      by_cases hg : st.now ≤ t
      · rw [if_pos hg]
        by_cases hp : p = S
        · have hcl : clear_buffer st p = st :=
            clear_buffer_of_not_tracked (by rw [hp]; exact hA1)
          refine ⟨?_, ?_, ?_⟩
          · show lookupBuf (clear_buffer st p).buffers S = none
            rw [hcl]; exact hA1
          · intro i tk hi hph
            have hi' : st.tasks.get? i = some tk := by
              rw [← hcl]
              exact hi
            exact hA2 i tk hi' hph
          · show callbacksFor S (clear_buffer st p).callbackLog = []
            rw [hcl]; exact hA3
        · obtain ⟨f1, f3, f4, f5⟩ := frame_clear (S := S) hInv hp
          refine ⟨?_, ?_, ?_⟩
          · show lookupBuf (clear_buffer st p).buffers S = none
            rw [f1]; exact hA1
          · intro i tk hi hph
            obtain ⟨tk0, htk0, hph0⟩ := f5 i tk hi hph
            exact hA2 i tk0 htk0 hph0
          · show callbacksFor S (clear_buffer st p).callbackLog = []
            rw [clear_buffer_callbackLog]; exact hA3
      · rw [if_neg hg]; exact ⟨hA1, hA2, hA3⟩

theorem phaseB_step (cbFail : String → String → Bool) {st : DebounceManager} {S : String}
    {msgs : List String} {ta : ℤ} {tid : Nat} (e : Event) (hInv : Inv st)
    (hB : PhaseB S msgs ta tid st)
    (hadd : ∀ x t, e ≠ Event.add S x t)
    (hclear : ∀ t, e ≠ Event.clear S t)
    (hexp : ∀ j t, e = Event.expire j t → ∀ tk, st.tasks.get? j = some tk →
       tk.status = .sleeping → tk.phone ≠ S) :
    PhaseB S msgs ta tid (step cbFail st e) := by
  obtain ⟨⟨b, hb, hbm, hbti⟩, ⟨tk, htk, hph, hsl, har⟩, h5, hlog⟩ := hB
  cases e with
  | add p x t =>
      have hp : p ≠ S := fun ee => hadd x t (by rw [ee])
      simp only [step]
      by_cases hg : st.now ≤ t
      · rw [if_pos hg]
        obtain ⟨f1, f3, f4, f5⟩ := frame_add (S := S) x t hInv hp
        refine ⟨⟨b, ?_, hbm, hbti⟩, ⟨tk, f3 tid tk htk hph hsl, hph, hsl, har⟩, ?_, ?_⟩
        · show lookupBuf (add_message st p x t).buffers S = some b
          rw [f1]; exact hb
        · intro j tkj hj hphj hjt hslj
          exact h5 j tkj (f4 j tkj hj hphj hslj) hphj hjt hslj
        · show callbacksFor S (add_message st p x t).callbackLog = []
          rw [add_message_callbackLog]; exact hlog
      · rw [if_neg hg]; exact ⟨⟨b, hb, hbm, hbti⟩, ⟨tk, htk, hph, hsl, har⟩, h5, hlog⟩
  | expire i t =>
      simp only [step]
      by_cases hg : st.now ≤ t ∧ taskStatus st.tasks i = some .sleeping ∧
          armedAt st.tasks i + st.debounce_seconds ≤ t
      · rw [if_pos hg]
        obtain ⟨tki, htki, hsli⟩ := taskStatus_eq_some hg.2.1
        have hphi : tki.phone ≠ S := hexp i t rfl tki htki hsli
        obtain ⟨f1, f2, f3, f4, f5⟩ := frame_expire (S := S) htki hphi
        refine ⟨⟨b, ?_, hbm, hbti⟩, ⟨tk, f3 tid tk htk hph hsl, hph, hsl, har⟩, ?_, ?_⟩
        · show lookupBuf (timerExpire st i).buffers S = some b
          rw [f1]; exact hb
        · intro j tkj hj hphj hjt hslj
          exact h5 j tkj (f4 j tkj hj hphj hslj) hphj hjt hslj
        · show callbacksFor S (timerExpire st i).callbackLog = []
          rw [f2]; exact hlog
      · rw [if_neg hg]; exact ⟨⟨b, hb, hbm, hbti⟩, ⟨tk, htk, hph, hsl, har⟩, h5, hlog⟩
  | finish i t =>
      simp only [step]
      by_cases hg : st.now ≤ t ∧ taskStatus st.tasks i = some .running
      · rw [if_pos hg]
        obtain ⟨f3, f4, f5⟩ := frame_finish cbFail (S := S) i hg.2
        refine ⟨⟨b, ?_, hbm, hbti⟩, ⟨tk, f3 tid tk htk hsl, hph, hsl, har⟩, ?_, ?_⟩
        · show lookupBuf (timerFinish cbFail st i).buffers S = some b
          rw [timerFinish_buffers]; exact hb
        · intro j tkj hj hphj hjt hslj
          exact h5 j tkj (f4 j tkj hj hslj) hphj hjt hslj
        · show callbacksFor S (timerFinish cbFail st i).callbackLog = []
          rw [timerFinish_callbackLog]; exact hlog
      · rw [if_neg hg]; exact ⟨⟨b, hb, hbm, hbti⟩, ⟨tk, htk, hph, hsl, har⟩, h5, hlog⟩
  | clear p t =>
      have hp : p ≠ S := fun ee => hclear t (by rw [ee])
      simp only [step]
      by_cases hg : st.now ≤ t
      · rw [if_pos hg]
        obtain ⟨f1, f3, f4, f5⟩ := frame_clear (S := S) hInv hp
        refine ⟨⟨b, ?_, hbm, hbti⟩, ⟨tk, f3 tid tk htk hph hsl, hph, hsl, har⟩, ?_, ?_⟩
        · show lookupBuf (clear_buffer st p).buffers S = some b
          rw [f1]; exact hb
        · intro j tkj hj hphj hjt hslj
          exact h5 j tkj (f4 j tkj hj hphj hslj) hphj hjt hslj
        · show callbacksFor S (clear_buffer st p).callbackLog = []
          rw [clear_buffer_callbackLog]; exact hlog
      · rw [if_neg hg]; exact ⟨⟨b, hb, hbm, hbti⟩, ⟨tk, htk, hph, hsl, har⟩, h5, hlog⟩

theorem phaseC_step (cbFail : String → String → Bool) {st : DebounceManager} {S : String}
    {agg : String} (e : Event) (hInv : Inv st) (hC : PhaseC S agg st)
    (hadd : ∀ x t, e ≠ Event.add S x t)
    (hclear : ∀ t, e ≠ Event.clear S t) :
    PhaseC S agg (step cbFail st e) := by
  obtain ⟨hC1, hC2⟩ := hC
  cases e with
  | add p x t =>
      have hp : p ≠ S := fun ee => hadd x t (by rw [ee])
      simp only [step]
      by_cases hg : st.now ≤ t
      · rw [if_pos hg]
        obtain ⟨f1, f3, f4, f5⟩ := frame_add (S := S) x t hInv hp
        refine ⟨?_, ?_⟩
        · show callbacksFor S (add_message st p x t).callbackLog = [agg]
          rw [add_message_callbackLog]; exact hC1
        · intro j tkj hj hphj hslj
          exact hC2 j tkj (f4 j tkj hj hphj hslj) hphj hslj
      · rw [if_neg hg]; exact ⟨hC1, hC2⟩
  | expire i t =>
      simp only [step]
      by_cases hg : st.now ≤ t ∧ taskStatus st.tasks i = some .sleeping ∧
          armedAt st.tasks i + st.debounce_seconds ≤ t
      · rw [if_pos hg]
        obtain ⟨tki, htki, hsli⟩ := taskStatus_eq_some hg.2.1
        have hphi : tki.phone ≠ S := fun e => hC2 i tki htki e hsli
        obtain ⟨f1, f2, f3, f4, f5⟩ := frame_expire (S := S) htki hphi
        refine ⟨?_, ?_⟩
        · show callbacksFor S (timerExpire st i).callbackLog = [agg]
          rw [f2]; exact hC1
        · intro j tkj hj hphj hslj
          exact hC2 j tkj (f4 j tkj hj hphj hslj) hphj hslj
      · rw [if_neg hg]; exact ⟨hC1, hC2⟩
  | finish i t =>
      simp only [step]
      by_cases hg : st.now ≤ t ∧ taskStatus st.tasks i = some .running
      · rw [if_pos hg]
        obtain ⟨f3, f4, f5⟩ := frame_finish cbFail (S := S) i hg.2
        refine ⟨?_, ?_⟩
        · show callbacksFor S (timerFinish cbFail st i).callbackLog = [agg]
          rw [timerFinish_callbackLog]; exact hC1
        · intro j tkj hj hphj hslj
          exact hC2 j tkj (f4 j tkj hj hslj) hphj hslj
      · rw [if_neg hg]; exact ⟨hC1, hC2⟩
  | clear p t =>
      have hp : p ≠ S := fun ee => hclear t (by rw [ee])
      simp only [step]
      by_cases hg : st.now ≤ t
      · rw [if_pos hg]
        obtain ⟨f1, f3, f4, f5⟩ := frame_clear (S := S) hInv hp
        refine ⟨?_, ?_⟩
        · show callbacksFor S (clear_buffer st p).callbackLog = [agg]
          rw [clear_buffer_callbackLog]; exact hC1
        · intro j tkj hj hphj hslj
          exact hC2 j tkj (f4 j tkj hj hphj hslj) hphj hslj
      · rw [if_neg hg]; exact ⟨hC1, hC2⟩

/-! ### Phase transitions for `S`'s own events -/

theorem taskDone_false_of_sleeping {ts : List TimerTask} {i : Nat} {tk : TimerTask}
    (h : ts.get? i = some tk) (hs : tk.status = .sleeping) : taskDone ts i = false := by
  unfold taskDone
  rw [h]
  simp [hs, TaskStatus.isDone]

theorem rearmTasks_of_not_done (ts : List TimerTask) (i : Nat)
    (h : taskDone ts i = false) : rearmTasks ts (some i) = cancelTask ts i := by
  simp [rearmTasks, h]

theorem taskStatus_of_get? {ts : List TimerTask} {i : Nat} {tk : TimerTask}
    (h : ts.get? i = some tk) : taskStatus ts i = some tk.status := by
  unfold taskStatus
  rw [h]
  rfl

theorem armedAt_of_get? {ts : List TimerTask} {i : Nat} {tk : TimerTask}
    (h : ts.get? i = some tk) : armedAt ts i = tk.armed_at := by
  unfold armedAt
  rw [h]
  rfl

/-- The first `add` for `S` opens an idle period: the fresh buffer holds
exactly the new fragment and a fresh sleeping timer armed at `t`. -/
theorem phaseA_addS (cbFail : String → String → Bool) {st : DebounceManager} {S : String}
    (x : String) (t : ℤ) (hA : PhaseA S st) (hg : st.now ≤ t) :
    PhaseB S [x] t st.tasks.length (step cbFail st (.add S x t)) ∧
    (step cbFail st (.add S x t)).tasks.length = st.tasks.length + 1 ∧
    (step cbFail st (.add S x t)).now = t ∧
    (step cbFail st (.add S x t)).debounce_seconds = st.debounce_seconds := by
  obtain ⟨hA1, hA2, hA3⟩ := hA
  simp only [step, if_pos hg]
  rw [add_message_of_not_tracked hA1]
  refine ⟨⟨⟨MessageBuffer.mk S [x] (some st.tasks.length) t t,
      lookupBuf_setBuf_self _ _ _, rfl, rfl⟩,
    ⟨TimerTask.mk S t .sleeping none, get?_snoc_length _ _, rfl, rfl, rfl⟩,
    ?_, hA3⟩, ?_, ?_, ?_⟩
  · intro j tkj hj hphj hjt hslj
    replace hj : (st.tasks ++ [TimerTask.mk S t .sleeping none]).get? j = some tkj := hj
    rw [get?_snoc] at hj
    by_cases hlt : j < st.tasks.length
    · rw [if_pos hlt] at hj
      exact hA2 j tkj hj hphj
    · rw [if_neg hlt] at hj
      by_cases heq : j = st.tasks.length
      · exact hjt heq
      · rw [if_neg heq] at hj
        exact Option.noConfusion hj
  · show (st.tasks ++ [TimerTask.mk S t .sleeping none]).length = st.tasks.length + 1
    simp
  · trivial
  · trivial

/-- A further `add` for `S` inside the idle window: the old timer is
cancelled, the fragment appended, and a fresh sleeping timer armed at
`t` becomes the buffer's handle. -/
theorem phaseB_addS (cbFail : String → String → Bool) {st : DebounceManager} {S : String}
    {msgs : List String} {ta : ℤ} {tid : Nat} (x : String) (t : ℤ)
    (hB : PhaseB S msgs ta tid st) (hg : st.now ≤ t) :
    PhaseB S (msgs ++ [x]) t st.tasks.length (step cbFail st (.add S x t)) ∧
    (step cbFail st (.add S x t)).tasks.length = st.tasks.length + 1 ∧
    (step cbFail st (.add S x t)).now = t ∧
    (step cbFail st (.add S x t)).debounce_seconds = st.debounce_seconds := by
  obtain ⟨⟨b, hb, hbm, hbti⟩, ⟨tk, htk, hph, hsl, har⟩, h5, hlog⟩ := hB
  have hnd : taskDone st.tasks tid = false := taskDone_false_of_sleeping htk hsl
  have hre : rearmTasks st.tasks b.timer_task = cancelTask st.tasks tid := by
    rw [hbti]
    exact rearmTasks_of_not_done _ _ hnd
  have hLc : (cancelTask st.tasks tid).length = st.tasks.length := cancelTask_length _ _
  simp only [step, if_pos hg]
  rw [add_message_of_tracked hb, hre]
  have hget : (cancelTask st.tasks tid ++ [TimerTask.mk S t .sleeping none]).get?
      st.tasks.length = some (TimerTask.mk S t .sleeping none) := by
    rw [← hLc]
    exact get?_snoc_length _ _
  refine ⟨⟨⟨_, lookupBuf_setBuf_self _ _ _, ?_, ?_⟩,
    ⟨TimerTask.mk S t .sleeping none, hget, rfl, rfl, rfl⟩,
    ?_, hlog⟩, ?_, ?_, ?_⟩
  · show b.messages ++ [x] = msgs ++ [x]
    rw [hbm]
  · show some (cancelTask st.tasks tid).length = some st.tasks.length
    rw [hLc]
  · intro j tkj hj hphj hjt hslj
    replace hj : (cancelTask st.tasks tid ++ [TimerTask.mk S t .sleeping none]).get? j
        = some tkj := hj
    rw [get?_snoc, hLc] at hj
    by_cases hlt : j < st.tasks.length
    · rw [if_pos hlt] at hj
      by_cases hji : j = tid
      · subst hji
        exact absurd hslj (cancelTask_not_sleeping _ _ _ hj)
      · rw [cancelTask_get?_ne _ _ _ hji] at hj
        exact h5 j tkj hj hphj hji hslj
    · rw [if_neg hlt] at hj
      by_cases heq : j = st.tasks.length
      · exact hjt heq
      · rw [if_neg heq] at hj
        exact Option.noConfusion hj
  · show (cancelTask st.tasks tid ++ [TimerTask.mk S t .sleeping none]).length
        = st.tasks.length + 1
    simp [hLc]
  · trivial
  · trivial

/-- Expiry of the idle period's armed timer: the buffer's fragments are
flushed and the Trigger Callback is invoked once with their join. -/
theorem phaseB_fire (cbFail : String → String → Bool) {st : DebounceManager} {S : String}
    {msgs : List String} {ta : ℤ} {tid : Nat} (t : ℤ)
    (hB : PhaseB S msgs ta tid st) (hg1 : st.now ≤ t)
    (hg2 : ta + st.debounce_seconds ≤ t) :
    PhaseC S (String.intercalate " " msgs) (step cbFail st (.expire tid t)) := by
  obtain ⟨⟨b, hb, hbm, hbti⟩, ⟨tk, htk, hph, hsl, har⟩, h5, hlog⟩ := hB
  have hstat : taskStatus st.tasks tid = some TaskStatus.sleeping := by
    rw [taskStatus_of_get? htk, hsl]
  have harm : armedAt st.tasks tid + st.debounce_seconds ≤ t := by
    rw [armedAt_of_get? htk, har]
    exact hg2
  have hbb : lookupBuf st.buffers tk.phone = some b := by
    rw [hph]
    exact hb
  simp only [step]
  rw [if_pos ⟨hg1, hstat, harm⟩]
  rw [timerExpire_of_found htk hbb]
  refine ⟨?_, ?_⟩
  · show callbacksFor S
        (st.callbackLog ++ [(tid, tk.phone, String.intercalate " " b.messages)]) =
      [String.intercalate " " msgs]
    rw [callbacksFor_append, hlog, hph, callbacksFor_single_self, hbm]
    simp
  · intro j tkj hj hphj hslj
    replace hj : (modifyTask st.tasks tid
        (fun u => { u with status := .running
                           invokedWith := some (tk.phone, String.intercalate " " b.messages) })).get? j
        = some tkj := hj
    by_cases hjt : j = tid
    · subst hjt
      rw [modifyTask_get?_self, htk] at hj
      simp only [Option.map_some'] at hj
      injection hj with hj
      rw [← hj] at hslj
      exact absurd hslj (by simp)
    · rw [modifyTask_get?_ne _ _ _ _ hjt] at hj
      exact h5 j tkj hj hphj hjt hslj

/-! ### Rewriting trace observations along a step -/

theorem addsFor_cons_add_self (S x : String) (t : ℤ) (es : List Event) :
    addsFor S (.add S x t :: es) = (x, t) :: addsFor S es := by
  rw [addsFor, if_pos rfl]

theorem addsFor_cons_add_ne {S p : String} (x : String) (t : ℤ) (es : List Event)
    (h : p ≠ S) : addsFor S (.add p x t :: es) = addsFor S es := by
  rw [addsFor, if_neg h]

theorem addsFor_cons_expire (S : String) (i : Nat) (t : ℤ) (es : List Event) :
    addsFor S (.expire i t :: es) = addsFor S es := rfl

theorem addsFor_cons_finish (S : String) (i : Nat) (t : ℤ) (es : List Event) :
    addsFor S (.finish i t :: es) = addsFor S es := rfl

theorem addsFor_cons_clear (S p : String) (t : ℤ) (es : List Event) :
    addsFor S (.clear p t :: es) = addsFor S es := rfl

theorem noClearFor_cons_clear {S p : String} {t : ℤ} {es : List Event}
    (h : noClearFor S (.clear p t :: es) = true) :
    p ≠ S ∧ noClearFor S es = true := by
  by_cases hp : p = S
  · rw [noClearFor, if_pos hp] at h
    exact absurd h (by simp)
  · rw [noClearFor, if_neg hp] at h
    exact ⟨hp, h⟩

theorem noClearFor_cons_add (S p x : String) (t : ℤ) (es : List Event) :
    noClearFor S (.add p x t :: es) = noClearFor S es := rfl

theorem noClearFor_cons_expire (S : String) (i : Nat) (t : ℤ) (es : List Event) :
    noClearFor S (.expire i t :: es) = noClearFor S es := rfl

theorem noClearFor_cons_finish (S : String) (i : Nat) (t : ℤ) (es : List Event) :
    noClearFor S (.finish i t :: es) = noClearFor S es := rfl

theorem timerExpire_debounce (st : DebounceManager) (tid : Nat) :
    (timerExpire st tid).debounce_seconds = st.debounce_seconds := by
  cases hts : st.tasks.get? tid with
  | none => unfold timerExpire; rw [hts]
  | some tk =>
      cases hb : lookupBuf st.buffers tk.phone with
      | none => rw [timerExpire_of_no_buffer hts hb]
      | some b => rw [timerExpire_of_found hts hb]

theorem timerFinish_debounce (cbFail : String → String → Bool) (st : DebounceManager)
    (tid : Nat) : (timerFinish cbFail st tid).debounce_seconds = st.debounce_seconds := by
  cases hts : st.tasks.get? tid with
  | none => rw [timerFinish_of_no_task cbFail hts]
  | some tk => rw [timerFinish_char cbFail hts]

theorem clear_buffer_debounce (st : DebounceManager) (p : String) :
    (clear_buffer st p).debounce_seconds = st.debounce_seconds := by
  cases hb : lookupBuf st.buffers p with
  | none => rw [clear_buffer_of_not_tracked hb]
  | some b => rw [clear_buffer_of_tracked hb]

theorem step_debounce (cbFail : String → String → Bool) (st : DebounceManager) (e : Event) :
    (step cbFail st e).debounce_seconds = st.debounce_seconds := by
  cases e with
  | add p x t =>
      simp only [step]
      by_cases hg : st.now ≤ t
      · rw [if_pos hg]
        rfl
      · rw [if_neg hg]
  | expire i t =>
      simp only [step]
      by_cases hg : st.now ≤ t ∧ taskStatus st.tasks i = some .sleeping ∧
          armedAt st.tasks i + st.debounce_seconds ≤ t
      · rw [if_pos hg]
        exact timerExpire_debounce st i
      · rw [if_neg hg]
  | finish i t =>
      simp only [step]
      by_cases hg : st.now ≤ t ∧ taskStatus st.tasks i = some .running
      · rw [if_pos hg]
        exact timerFinish_debounce cbFail st i
      · rw [if_neg hg]
  | clear p t =>
      simp only [step]
      by_cases hg : st.now ≤ t
      · rw [if_pos hg]
        exact clear_buffer_debounce st p
      · rw [if_neg hg]

/-! ### Runs across an idle period -/

/-- Once an idle period has flushed, a trace with no further `add` or
`clear` for the sender leaves the flushed-phase observations unchanged. -/
theorem runC (cbFail : String → String → Bool) (S agg : String) :
    ∀ (τ : List Event) (st : DebounceManager), Inv st →
      addsFor S τ = [] → noClearFor S τ = true → PhaseC S agg st →
      PhaseC S agg (run cbFail st τ) := by
  intro τ
  induction τ with
  | nil =>
      intro st _ _ _ hC
      exact hC
  | cons e es ih =>
      intro st hInv hadds hnc hC
      rw [run_cons]
      cases e with
      | add p x t =>
          have hp : p ≠ S := by
            intro e0
            rw [e0, addsFor_cons_add_self] at hadds
            exact List.noConfusion hadds
          rw [addsFor_cons_add_ne x t es hp] at hadds
          refine ih _ (inv_step cbFail st _ hInv) hadds hnc ?_
          exact phaseC_step cbFail _ hInv hC
            (by intro x' t' he; injection he with h1; exact hp h1)
            (by intro t' he; exact Event.noConfusion he)
      | expire i t =>
          refine ih _ (inv_step cbFail st _ hInv) hadds hnc ?_
          exact phaseC_step cbFail _ hInv hC
            (by intro x' t' he; exact Event.noConfusion he)
            (by intro t' he; exact Event.noConfusion he)
      | finish i t =>
          refine ih _ (inv_step cbFail st _ hInv) hadds hnc ?_
          exact phaseC_step cbFail _ hInv hC
            (by intro x' t' he; exact Event.noConfusion he)
            (by intro t' he; exact Event.noConfusion he)
      | clear p t =>
          obtain ⟨hp, hnc'⟩ := noClearFor_cons_clear hnc
          refine ih _ (inv_step cbFail st _ hInv) hadds hnc' ?_
          exact phaseC_step cbFail _ hInv hC
            (by intro x' t' he; exact Event.noConfusion he)
            (by intro t' he; injection he with h1; exact hp h1)

/-- From an open idle period, any admissible continuation of the schedule
whose remaining `add` calls for the sender keep all gaps below the
debounce duration produces either no callback for the sender yet, or
exactly the single aggregated callback of the period. -/
theorem runB (cbFail : String → String → Bool) (S : String) (D : ℤ) :
    ∀ (τ : List Event) (st : DebounceManager) (msgs : List String) (ta : ℤ) (tid : Nat)
      (rem : List (String × ℤ)),
      Inv st → st.debounce_seconds = D →
      timeMono st.now τ = true →
      addsFor S τ = rem →
      noClearFor S τ = true →
      chainGaps D ta rem →
      PhaseB S msgs ta tid st →
      callbacksFor S (run cbFail st τ).callbackLog = [] ∨
        callbacksFor S (run cbFail st τ).callbackLog =
          [String.intercalate " " (msgs ++ rem.map Prod.fst)] := by
  intro τ
  induction τ with
  | nil =>
      intro st msgs ta tid rem _ _ _ hadds _ _ hB
      exact Or.inl hB.2.2.2
  | cons e es ih =>
      intro st msgs ta tid rem hInv hD htm hadds hnc hgaps hB
      obtain ⟨htm1, htm2⟩ := timeMono_cons htm
      have htm' : timeMono (step cbFail st e).now es = true :=
        timeMono_weaken (step_now_le cbFail st e htm1) htm2
      rw [run_cons]
      have hInv' := inv_step cbFail st e hInv
      have hD' : (step cbFail st e).debounce_seconds = D := by
        rw [step_debounce]
        exact hD
      cases e with
      | add p x t =>
          by_cases hp : p = S
          · subst hp
            rw [addsFor_cons_add_self] at hadds
            cases rem with
            | nil => exact absurd hadds (List.cons_ne_nil _ _)
            | cons a rem' =>
                injection hadds with ha hrem
                subst ha
                obtain ⟨hg1, hg2, hgaps'⟩ := hgaps
                obtain ⟨hBnew, -, -, -⟩ := phaseB_addS cbFail x t hB htm1
                rcases ih _ (msgs ++ [x]) t st.tasks.length rem' hInv' hD' htm' hrem hnc
                    hgaps' hBnew with hres | hres
                · exact Or.inl hres
                · right
                  rw [hres]
                  simp
          · rw [addsFor_cons_add_ne x t es hp] at hadds
            refine ih _ msgs ta tid rem hInv' hD' htm' hadds hnc hgaps ?_
            exact phaseB_step cbFail _ hInv hB
              (by intro x' t' he; injection he with h1; exact hp h1)
              (by intro t' he; exact Event.noConfusion he)
              (by intro j t' he; exact Event.noConfusion he)
      | expire i t =>
          by_cases hg : st.now ≤ t ∧ taskStatus st.tasks i = some .sleeping ∧
              armedAt st.tasks i + st.debounce_seconds ≤ t
          · obtain ⟨tki, htki, hsli⟩ := taskStatus_eq_some hg.2.1
            by_cases hphi : tki.phone = S
            · have hit : i = tid := by
                by_contra hne
                exact hB.2.2.1 i tki htki hphi hne hsli
              subst hit
              obtain ⟨hBb, ⟨tk, htk, hph, hsl, har⟩, h5, hlog⟩ := id hB
              have htkk : tki = tk := Option.some.inj (htki.symm.trans htk)
              cases rem with
              | nil =>
                  have hg2 : ta + st.debounce_seconds ≤ t := by
                    have h22 := hg.2.2
                    rw [armedAt_of_get? htki, htkk, har] at h22
                    exact h22
                  have hC := phaseB_fire cbFail t hB htm1 hg2
                  have hfinal := runC cbFail S (String.intercalate " " msgs) es _
                    hInv' hadds hnc hC
                  right
                  rw [hfinal.1]
                  simp
              | cons a rem' =>
                  exfalso
                  have hmema : Event.add S a.1 a.2 ∈ es := addsFor_head_mem hadds
                  have hta1 : ta ≤ a.2 := hgaps.1
                  have hta2 : a.2 < ta + D := hgaps.2.1
                  have ht_le : t ≤ a.2 := by
                    have := timeMono_le_of_mem htm2 hmema
                    simpa [Event.time] using this
                  have h22 := hg.2.2
                  rw [armedAt_of_get? htki, htkk, har, hD] at h22
                  omega
            · refine ih _ msgs ta tid rem hInv' hD' htm' hadds hnc hgaps ?_
              refine phaseB_step cbFail _ hInv hB
                (by intro x' t' he; exact Event.noConfusion he)
                (by intro t' he; exact Event.noConfusion he)
                ?_
              intro j t' he tk0 h1 h2
              injection he with hj ht
              subst hj
              rw [htki] at h1
              injection h1 with h1
              rw [← h1]
              exact hphi
          · have hstep : step cbFail st (.expire i t) = st := by
              simp only [step, if_neg hg]
            rw [hstep]
            exact ih _ msgs ta tid rem hInv hD (timeMono_weaken htm1 htm2) hadds hnc
              hgaps hB
      | finish i t =>
          refine ih _ msgs ta tid rem hInv' hD' htm' hadds hnc hgaps ?_
          exact phaseB_step cbFail _ hInv hB
            (by intro x' t' he; exact Event.noConfusion he)
            (by intro t' he; exact Event.noConfusion he)
            (by intro j t' he; exact Event.noConfusion he)
      | clear p t =>
          obtain ⟨hp, hnc'⟩ := noClearFor_cons_clear hnc
          refine ih _ msgs ta tid rem hInv' hD' htm' hadds hnc' hgaps ?_
          exact phaseB_step cbFail _ hInv hB
            (by intro x' t' he; exact Event.noConfusion he)
            (by intro t' he; injection he with h1; exact hp h1)
            (by intro j t' he; exact Event.noConfusion he)

/-- Main safety run: starting with no state for the sender, any admissible
schedule whose `add` calls for the sender form one burst with gaps below
the debounce duration yields either no callback for the sender, or exactly
one, carrying the burst's fragments joined by single spaces in arrival
order. -/
theorem runA (cbFail : String → String → Bool) (S : String) (D : ℤ) :
    ∀ (τ : List Event) (st : DebounceManager) (rem : List (String × ℤ)),
      Inv st → st.debounce_seconds = D →
      timeMono st.now τ = true →
      addsFor S τ = rem →
      noClearFor S τ = true →
      gapsChain D rem →
      PhaseA S st →
      callbacksFor S (run cbFail st τ).callbackLog = [] ∨
        callbacksFor S (run cbFail st τ).callbackLog =
          [String.intercalate " " (rem.map Prod.fst)] := by
  intro τ
  induction τ with
  | nil =>
      intro st rem _ _ _ _ _ _ hA
      exact Or.inl hA.2.2
  | cons e es ih =>
      intro st rem hInv hD htm hadds hnc hgaps hA
      obtain ⟨htm1, htm2⟩ := timeMono_cons htm
      have htm' : timeMono (step cbFail st e).now es = true :=
        timeMono_weaken (step_now_le cbFail st e htm1) htm2
      rw [run_cons]
      have hInv' := inv_step cbFail st e hInv
      have hD' : (step cbFail st e).debounce_seconds = D := by
        rw [step_debounce]
        exact hD
      cases e with
      | add p x t =>
          by_cases hp : p = S
          · subst hp
            rw [addsFor_cons_add_self] at hadds
            cases rem with
            | nil => exact absurd hadds (List.cons_ne_nil _ _)
            | cons a rem' =>
                injection hadds with ha hrem
                subst ha
                obtain ⟨hBnew, -, -, -⟩ := phaseA_addS cbFail x t hA htm1
                rcases runB cbFail _ D es _ [x] t st.tasks.length rem' hInv' hD' htm'
                    hrem hnc hgaps hBnew with hres | hres
                · exact Or.inl hres
                · right
                  rw [hres]
                  simp
          · rw [addsFor_cons_add_ne x t es hp] at hadds
            refine ih _ rem hInv' hD' htm' hadds hnc hgaps ?_
            exact phaseA_step cbFail _ hInv hA
              (by intro x' t' he; injection he with h1; exact hp h1)
      | expire i t =>
          refine ih _ rem hInv' hD' htm' hadds hnc hgaps ?_
          exact phaseA_step cbFail _ hInv hA
            (by intro x' t' he; exact Event.noConfusion he)
      | finish i t =>
          refine ih _ rem hInv' hD' htm' hadds hnc hgaps ?_
          exact phaseA_step cbFail _ hInv hA
            (by intro x' t' he; exact Event.noConfusion he)
      | clear p t =>
          obtain ⟨hp, hnc'⟩ := noClearFor_cons_clear hnc
          refine ih _ rem hInv' hD' htm' hadds hnc' hgaps ?_
          exact phaseA_step cbFail _ hInv hA
            (by intro x' t' he; exact Event.noConfusion he)

/-! ### The canonical completed idle period fires exactly once -/

theorem run_append (cbFail : String → String → Bool) (st : DebounceManager)
    (τ1 τ2 : List Event) :
    run cbFail st (τ1 ++ τ2) = run cbFail (run cbFail st τ1) τ2 := by
  simp [run, List.foldl_append]

/-- Running just the burst's `add` calls for `S` keeps the idle period
open, accumulating the fragments, with the armed time and task count
tracking the arrivals. -/
theorem run_addsS (cbFail : String → String → Bool) (S : String) (D : ℤ) :
    ∀ (rem : List (String × ℤ)) (st : DebounceManager) (msgs : List String) (ta : ℤ)
      (tid : Nat),
      PhaseB S msgs ta tid st →
      st.now = ta →
      tid + 1 = st.tasks.length →
      chainGaps D ta rem →
      PhaseB S (msgs ++ rem.map Prod.fst) (lastT ta rem)
          (st.tasks.length + rem.length - 1)
          (run cbFail st (rem.map (fun a => Event.add S a.1 a.2))) ∧
      (run cbFail st (rem.map (fun a => Event.add S a.1 a.2))).now = lastT ta rem ∧
      (run cbFail st (rem.map (fun a => Event.add S a.1 a.2))).debounce_seconds =
        st.debounce_seconds ∧
      (run cbFail st (rem.map (fun a => Event.add S a.1 a.2))).tasks.length =
        st.tasks.length + rem.length := by
  intro rem
  induction rem with
  | nil =>
      intro st msgs ta tid hB hnow htid hch
      have hidx : st.tasks.length + ([] : List (String × ℤ)).length - 1 = tid := by
        simp
        omega
      refine ⟨?_, hnow, rfl, rfl⟩
      rw [hidx]
      simpa using hB
  | cons a rem' ih =>
      intro st msgs ta tid hB hnow htid hch
      obtain ⟨h1, h2, hch'⟩ := hch
      have hg : st.now ≤ a.2 := by rw [hnow]; exact h1
      obtain ⟨hBnew, hlen, hnow', hdeb⟩ := phaseB_addS cbFail a.1 a.2 hB hg
      simp only [List.map_cons]
      rw [run_cons]
      obtain ⟨c1, c2, c3, c4⟩ := ih (step cbFail st (.add S a.1 a.2)) (msgs ++ [a.1])
        a.2 st.tasks.length hBnew hnow' (by rw [hlen]) hch'
      have e1 : (msgs ++ [a.1]) ++ rem'.map Prod.fst = msgs ++ a.1 :: rem'.map Prod.fst := by
        simp
      have e2 : (step cbFail st (.add S a.1 a.2)).tasks.length + rem'.length - 1 =
          st.tasks.length + (a :: rem').length - 1 := by
        rw [hlen]
        simp only [List.length_cons]
        omega
      rw [e1, e2] at c1
      refine ⟨c1, c2, ?_, ?_⟩
      · rw [c3, hdeb]
      · rw [c4, hlen]
        simp only [List.length_cons]
        omega

/-- The canonical schedule of a completed idle period — the burst's `add`
calls followed by the expiry of the timer armed by the last one — invokes
the Trigger Callback exactly once, with all fragments joined by single
spaces in arrival order. -/
theorem canonical_run (cbFail : String → String → Bool) (S : String) (D : ℤ)
    (xs : List (String × ℤ)) (hD : 0 < D) (hne : xs ≠ []) (hgaps : gapsChain D xs)
    (h0 : 0 ≤ firstTime xs) :
    callbacksFor S
        (run cbFail (DebounceManager.init D) (canonicalTrace S D xs)).callbackLog =
      [String.intercalate " " (xs.map Prod.fst)] := by
  cases xs with
  | nil => exact absurd rfl hne
  | cons a rem' =>
      have hA : PhaseA S (DebounceManager.init D) :=
        ⟨rfl, fun i tk h => Option.noConfusion h, rfl⟩
      have hg0 : (DebounceManager.init D).now ≤ a.2 := h0
      obtain ⟨hB1, hlen1, hnow1, hdeb1⟩ := phaseA_addS cbFail a.1 a.2 hA hg0
      obtain ⟨hB2, hnow2, hdeb2, hlen2⟩ := run_addsS cbFail S D rem' _ [a.1] a.2 0
        hB1 hnow1 (by rw [hlen1]; rfl) hgaps
      have h00 : (DebounceManager.init D).tasks.length = 0 := rfl
      have hidx : (step cbFail (DebounceManager.init D)
            (Event.add S a.1 a.2)).tasks.length + rem'.length - 1 =
          (a :: rem').length - 1 := by
        rw [hlen1, h00]
        simp only [List.length_cons]
        omega
      rw [hidx] at hB2
      have hdebD : (run cbFail (step cbFail (DebounceManager.init D)
            (Event.add S a.1 a.2)) (rem'.map (fun b => Event.add S b.1 b.2))).debounce_seconds
          = D := by
        rw [hdeb2, hdeb1]
        rfl
      have hg1 : (run cbFail (step cbFail (DebounceManager.init D)
            (Event.add S a.1 a.2)) (rem'.map (fun b => Event.add S b.1 b.2))).now ≤
          lastTime (a :: rem') + D := by
        rw [hnow2]
        have : lastTime (a :: rem') = lastT a.2 rem' := rfl
        rw [this]
        omega
      have hg2 : lastT a.2 rem' + (run cbFail (step cbFail (DebounceManager.init D)
            (Event.add S a.1 a.2)) (rem'.map (fun b => Event.add S b.1 b.2))).debounce_seconds ≤
          lastTime (a :: rem') + D := by
        rw [hdebD]
        have : lastTime (a :: rem') = lastT a.2 rem' := rfl
        rw [this]
      have hC := phaseB_fire cbFail (lastTime (a :: rem') + D) hB2 hg1 hg2
      rw [canonicalTrace, run_append]
      have hrunmap : run cbFail (DebounceManager.init D)
          ((a :: rem').map (fun b => Event.add S b.1 b.2)) =
          run cbFail (step cbFail (DebounceManager.init D) (Event.add S a.1 a.2))
            (rem'.map (fun b => Event.add S b.1 b.2)) := by
        simp only [List.map_cons]
        rw [run_cons]
      rw [hrunmap]
      have hjoin : ([a.1] ++ rem'.map Prod.fst) = (a :: rem').map Prod.fst := by simp
      rw [← hjoin]
      exact hC.1

/-! ### A cancelled timer never invokes the callback -/

theorem cancelTask_get?_cancelled (ts : List TimerTask) (j i : Nat) (tk : TimerTask)
    (h : ts.get? i = some tk) (hc : tk.status = .cancelled) :
    (cancelTask ts j).get? i = some tk := by
  by_cases hij : i = j
  · subst hij
    rw [cancelTask_get?_self, h]
    simp [hc]
  · rw [cancelTask_get?_ne _ _ _ hij]
    exact h

theorem rearmTasks_get?_cancelled (ts : List TimerTask) (bt : Option Nat) (i : Nat)
    (tk : TimerTask) (h : ts.get? i = some tk) (hc : tk.status = .cancelled) :
    (rearmTasks ts bt).get? i = some tk := by
  cases bt with
  | none => exact h
  | some j =>
      by_cases hd : taskDone ts j = true
      · simp only [rearmTasks, if_pos hd]
        exact h
      · simp only [rearmTasks, if_neg hd]
        exact cancelTask_get?_cancelled ts j i tk h hc

/-- Once a timer task is cancelled it stays cancelled: no scheduler step
can revive it. -/
theorem step_cancelled (cbFail : String → String → Bool) (st : DebounceManager) (e : Event)
    (i : Nat) (tk : TimerTask) (h : st.tasks.get? i = some tk)
    (hc : tk.status = .cancelled) : (step cbFail st e).tasks.get? i = some tk := by
  cases e with
  | add p x t =>
      simp only [step]
      by_cases hg : st.now ≤ t
      · rw [if_pos hg]
        show (add_message st p x t).tasks.get? i = some tk
        cases hb : lookupBuf st.buffers p with
        | none =>
            rw [add_message_of_not_tracked hb]
            show (st.tasks ++ [TimerTask.mk p t .sleeping none]).get? i = some tk
            rw [get?_snoc, if_pos (get?_lt_length h)]
            exact h
        | some b =>
            rw [add_message_of_tracked hb]
            show (rearmTasks st.tasks b.timer_task ++ [TimerTask.mk p t .sleeping none]).get? i
              = some tk
            have hlt : i < (rearmTasks st.tasks b.timer_task).length := by
              rw [rearmTasks_length]
              exact get?_lt_length h
            rw [get?_snoc, if_pos hlt]
            exact rearmTasks_get?_cancelled st.tasks b.timer_task i tk h hc
      · rw [if_neg hg]
        exact h
  | expire j t =>
      simp only [step]
      by_cases hg : st.now ≤ t ∧ taskStatus st.tasks j = some .sleeping ∧
          armedAt st.tasks j + st.debounce_seconds ≤ t
      · rw [if_pos hg]
        obtain ⟨tkj, htkj, hslj⟩ := taskStatus_eq_some hg.2.1
        have hji : i ≠ j := by
          intro e0
          rw [e0, htkj] at h
          injection h with h
          rw [h] at hslj
          rw [hc] at hslj
          exact TaskStatus.noConfusion hslj
        show (timerExpire st j).tasks.get? i = some tk
        cases hb : lookupBuf st.buffers tkj.phone with
        | none =>
            rw [timerExpire_of_no_buffer htkj hb]
            show (modifyTask st.tasks j _).get? i = some tk
            rw [modifyTask_get?_ne _ _ _ _ hji]
            exact h
        | some b =>
            rw [timerExpire_of_found htkj hb]
            show (modifyTask st.tasks j _).get? i = some tk
            rw [modifyTask_get?_ne _ _ _ _ hji]
            exact h
      · rw [if_neg hg]
        exact h
  | finish j t =>
      simp only [step]
      by_cases hg : st.now ≤ t ∧ taskStatus st.tasks j = some .running
      · rw [if_pos hg]
        obtain ⟨tkj, htkj, hrj⟩ := taskStatus_eq_some hg.2
        have hji : i ≠ j := by
          intro e0
          rw [e0, htkj] at h
          injection h with h
          rw [h] at hrj
          rw [hc] at hrj
          exact TaskStatus.noConfusion hrj
        show (timerFinish cbFail st j).tasks.get? i = some tk
        rw [timerFinish_char cbFail htkj]
        show (modifyTask st.tasks j _).get? i = some tk
        rw [modifyTask_get?_ne _ _ _ _ hji]
        exact h
      · rw [if_neg hg]
        exact h
  | clear p t =>
      simp only [step]
      by_cases hg : st.now ≤ t
      · rw [if_pos hg]
        show (clear_buffer st p).tasks.get? i = some tk
        cases hb : lookupBuf st.buffers p with
        | none =>
            rw [clear_buffer_of_not_tracked hb]
            exact h
        | some b =>
            rw [clear_buffer_of_tracked hb]
            cases hbt : b.timer_task with
            | none => exact h
            | some j =>
                show (cancelTask st.tasks j).get? i = some tk
                exact cancelTask_get?_cancelled st.tasks j i tk h hc
      · rw [if_neg hg]
        exact h

/-- Every step either leaves the callback log unchanged or appends exactly
one invocation, made by a task that was sleeping (hence not cancelled). -/
theorem step_log_cases (cbFail : String → String → Bool) (st : DebounceManager) (e : Event) :
    (step cbFail st e).callbackLog = st.callbackLog ∨
    ∃ j p x tkj, st.tasks.get? j = some tkj ∧ tkj.status = .sleeping ∧
      (step cbFail st e).callbackLog = st.callbackLog ++ [(j, p, x)] := by
  cases e with
  | add p x t =>
      simp only [step]
      by_cases hg : st.now ≤ t
      · rw [if_pos hg]
        exact Or.inl (add_message_callbackLog st p x t)
      · rw [if_neg hg]
        exact Or.inl rfl
  | expire j t =>
      simp only [step]
      by_cases hg : st.now ≤ t ∧ taskStatus st.tasks j = some .sleeping ∧
          armedAt st.tasks j + st.debounce_seconds ≤ t
      · rw [if_pos hg]
        obtain ⟨tkj, htkj, hslj⟩ := taskStatus_eq_some hg.2.1
        cases hb : lookupBuf st.buffers tkj.phone with
        | none =>
            left
            rw [show (timerExpire st j).callbackLog = st.callbackLog from by
              rw [timerExpire_of_no_buffer htkj hb]]
        | some b =>
            right
            refine ⟨j, tkj.phone, String.intercalate " " b.messages, tkj, htkj, hslj, ?_⟩
            rw [show (timerExpire st j).callbackLog =
                st.callbackLog ++ [(j, tkj.phone, String.intercalate " " b.messages)] from by
              rw [timerExpire_of_found htkj hb]]
      · rw [if_neg hg]
        exact Or.inl rfl
  | finish j t =>
      simp only [step]
      by_cases hg : st.now ≤ t ∧ taskStatus st.tasks j = some .running
      · rw [if_pos hg]
        exact Or.inl (timerFinish_callbackLog cbFail st j)
      · rw [if_neg hg]
        exact Or.inl rfl
  | clear p t =>
      simp only [step]
      by_cases hg : st.now ≤ t
      · rw [if_pos hg]
        exact Or.inl (clear_buffer_callbackLog st p)
      · rw [if_neg hg]
        exact Or.inl rfl

/-- After a timer is cancelled, no suffix of the schedule adds any
invocation attributed to it: its share of the callback log is frozen. -/
theorem run_cancelled_entries (cbFail : String → String → Bool) :
    ∀ (τ : List Event) (st : DebounceManager) (i : Nat) (tk : TimerTask),
      st.tasks.get? i = some tk → tk.status = .cancelled →
      entriesFor i (run cbFail st τ).callbackLog = entriesFor i st.callbackLog ∧
      (run cbFail st τ).tasks.get? i = some tk := by
  intro τ
  induction τ with
  | nil =>
      intro st i tk h hc
      exact ⟨rfl, h⟩
  | cons e es ih =>
      intro st i tk h hc
      rw [run_cons]
      have hstep := step_cancelled cbFail st e i tk h hc
      obtain ⟨h1, h2⟩ := ih _ i tk hstep hc
      refine ⟨?_, h2⟩
      rw [h1]
      rcases step_log_cases cbFail st e with hl | ⟨j, p, x, tkj, htkj, hslj, hl⟩
      · rw [hl]
      · have hji : j ≠ i := by
          intro e0
          rw [e0, h] at htkj
          injection htkj with htkj
          rw [← htkj] at hslj
          rw [hc] at hslj
          exact TaskStatus.noConfusion hslj
        rw [hl, entriesFor_append_ne _ _ _ _ _ hji]

/-! ### The claims -/

/-- C1 (Coalescing): for every sender `S` and every burst of `add(S, t1)`,
…, `add(S, tn)` with inter-arrival gaps strictly below the debounce
duration, the Trigger Callback is invoked exactly once for that idle
period, and the aggregated text it receives is the fragments joined by
single spaces in arrival order.  Formally: (i) over every admissible
schedule (time-monotone, whose `add` calls for `S` are exactly the burst,
with no `clear` for `S`) the callbacks delivered for `S` are either none —
the period has not yet expired — or exactly the single joined text, never
two and never a different text; (ii) the canonical completed schedule
(the burst followed by the last armed timer's expiry one debounce after
the last arrival) delivers exactly that one callback. -/
theorem claim_C1_coalescing (cbFail : String → String → Bool) (D : ℤ) (S : String)
    (xs : List (String × ℤ)) (τ : List Event)
    (hD : 0 < D) (hne : xs ≠ []) (hgaps : gapsChain D xs) (h0 : 0 ≤ firstTime xs)
    (hadds : addsFor S τ = xs) (hnc : noClearFor S τ = true)
    (htm : timeMono 0 τ = true) :
    (callbacksFor S (run cbFail (DebounceManager.init D) τ).callbackLog = [] ∨
      callbacksFor S (run cbFail (DebounceManager.init D) τ).callbackLog =
        [String.intercalate " " (xs.map Prod.fst)]) ∧
    callbacksFor S (run cbFail (DebounceManager.init D)
        (canonicalTrace S D xs)).callbackLog =
      [String.intercalate " " (xs.map Prod.fst)] := by
  constructor
  · exact runA cbFail S D τ (DebounceManager.init D) xs (inv_init D) rfl htm hadds hnc
      hgaps ⟨rfl, fun i tk h => Option.noConfusion h, rfl⟩
  · exact canonical_run cbFail S D xs hD hne hgaps h0

/-- Witness for C1: the spec's concrete scenario — `add("U1","Hi")` at
t=0, `add("U1","there")` at t=1, `add("U1","how are you")` at t=2,
debounce 3 — delivers exactly one callback, "Hi there how are you". -/
theorem claim_C1_coalescing_witness :
    callbacksFor "U1" (run (fun _ _ => false) (DebounceManager.init 3)
        (canonicalTrace "U1" 3 [("Hi", 0), ("there", 1), ("how are you", 2)])).callbackLog =
      ["Hi there how are you"] :=
  ((claim_C1_coalescing (fun _ _ => false) 3 "U1"
      [("Hi", 0), ("there", 1), ("how are you", 2)]
      (canonicalTrace "U1" 3 [("Hi", 0), ("there", 1), ("how are you", 2)])
      (by decide) (by decide) (by decide) (by decide) (by decide) (by decide)
      (by decide)).2).trans (by decide)

/-- C2 (No duplicate flush): (i) a timer that has been cancelled never
invokes the Trigger Callback afterwards — over any continuation of the
schedule, the callback-log entries attributed to a cancelled task are
exactly those already present; (ii) in every reachable state no task id
occurs twice in the callback log (each timer fires at most once); (iii) in
a concrete idle period where an old timer's expiry is attempted alongside
the live timer's, the total number of invocations is exactly 1, not 0 and
not 2. -/
theorem claim_C2_no_duplicate_flush (cbFail : String → String → Bool) :
    (∀ (st : DebounceManager) (i : Nat) (tk : TimerTask) (τ : List Event),
       st.tasks.get? i = some tk → tk.status = .cancelled →
       entriesFor i (run cbFail st τ).callbackLog = entriesFor i st.callbackLog) ∧
    (∀ st : DebounceManager, Reachable st →
       (st.callbackLog.map (fun e => e.1)).Nodup) ∧
    (run (fun _ _ => false) (DebounceManager.init 3)
        [.add "U1" "a" 0, .add "U1" "b" 1, .expire 0 4, .expire 1 4]).callbackLog =
      [(1, "U1", "a b")] := by
  refine ⟨?_, ?_, ?_⟩
  · intro st i tk τ h hc
    exact (run_cancelled_entries cbFail τ st i tk h hc).1
  · intro st hr
    exact (reachable_inv hr).logNodup
  · decide

/-- Witness for C2: after `add("U1","a")`, `add("U1","b")` the first timer
(task 0) is cancelled; an expiry attempt for it adds no invocation, and
the reachable state's log has no duplicate task ids. -/
theorem claim_C2_no_duplicate_flush_witness :
    entriesFor 0 (run (fun _ _ => false)
        (run (fun _ _ => false) (DebounceManager.init 3)
          [.add "U1" "a" 0, .add "U1" "b" 1]) [.expire 0 99]).callbackLog =
      entriesFor 0 (run (fun _ _ => false) (DebounceManager.init 3)
          [.add "U1" "a" 0, .add "U1" "b" 1]).callbackLog ∧
    ((run (fun _ _ => false) (DebounceManager.init 3)
        [.add "U1" "a" 0, .add "U1" "b" 1]).callbackLog.map (fun e => e.1)).Nodup :=
  ⟨(claim_C2_no_duplicate_flush (fun _ _ => false)).1 _ 0
      (TimerTask.mk "U1" 0 .cancelled none) [.expire 0 99] (by decide) (by decide),
    (claim_C2_no_duplicate_flush (fun _ _ => false)).2.1 _
      ⟨3, fun _ _ => false, [.add "U1" "a" 0, .add "U1" "b" 1], rfl⟩⟩

/-- C3 counterexample: after `add("U1","Hi")` at t=0 and the timer's
expiry at t=3, the Trigger Callback has been invoked (the flush ran to
line 131), yet the buffer's `timer_task` still references task 0:
`_timer_callback` clears only `messages` (line 128, `buffer.clear()`)
and never clears the `active_timer` reference, refuting the claim that
*both* the fragment list and the `active_timer` reference are cleared
before the callback is invoked. -/
theorem claim_C3_expiry_counterexample :
    (run (fun _ _ => false) (DebounceManager.init 3)
        [.add "U1" "Hi" 0, .expire 0 3]).callbackLog = [(0, "U1", "Hi")] ∧
    (lookupBuf (run (fun _ _ => false) (DebounceManager.init 3)
        [.add "U1" "Hi" 0, .expire 0 3]).buffers "U1").map MessageBuffer.timer_task =
      some (some 0) := by decide

/-- C3 amended: when a timer fires and finds its sender's buffer, the
buffer's fragment list is cleared before the Trigger Callback is invoked
(`timerExpire` leaves `messages = []` while recording the invocation of
the pre-clear join), but the `active_timer` reference is NOT cleared — it
still holds the firing task's handle; a fragment arriving after the flush
begins starts a new idle period containing only the new fragment (it is
neither dropped nor merged into the just-flushed text). -/
theorem claim_C3_expiry_protocol_amended (st : DebounceManager) (tid : Nat)
    (tk : TimerTask) (b : MessageBuffer) (x : String) (t' : ℤ)
    (h1 : st.tasks.get? tid = some tk) (h2 : lookupBuf st.buffers tk.phone = some b) :
    (∃ b', lookupBuf (timerExpire st tid).buffers tk.phone = some b' ∧
       b'.messages = [] ∧ b'.timer_task = b.timer_task) ∧
    (timerExpire st tid).callbackLog =
      st.callbackLog ++ [(tid, tk.phone, String.intercalate " " b.messages)] ∧
    (∃ b'', lookupBuf (add_message (timerExpire st tid) tk.phone x t').buffers tk.phone =
       some b'' ∧ b''.messages = [x]) := by
  rw [timerExpire_of_found h1 h2]
  refine ⟨⟨{ b with messages := [] }, ?_, rfl, rfl⟩, rfl, ?_⟩
  · show lookupBuf (setBuf st.buffers tk.phone { b with messages := [] }) tk.phone = _
    exact lookupBuf_setBuf_self _ _ _
  · have hb' : lookupBuf (setBuf st.buffers tk.phone { b with messages := [] }) tk.phone
        = some { b with messages := [] } := lookupBuf_setBuf_self _ _ _
    rw [add_message_of_tracked hb']
    refine ⟨_, lookupBuf_setBuf_self _ _ _, rfl⟩

/-- Witness for C3's amended statement at the concrete run of the
counterexample, with a follow-up `add("U1","new msg")` at t=6. -/
theorem claim_C3_expiry_protocol_amended_witness :
    (∃ b', lookupBuf (timerExpire (add_message (DebounceManager.init 3) "U1" "Hi" 0)
        0).buffers "U1" = some b' ∧ b'.messages = [] ∧ b'.timer_task = some 0) ∧
    (timerExpire (add_message (DebounceManager.init 3) "U1" "Hi" 0) 0).callbackLog =
      [] ++ [(0, "U1", String.intercalate " " ["Hi"])] ∧
    (∃ b'', lookupBuf (add_message
        (timerExpire (add_message (DebounceManager.init 3) "U1" "Hi" 0) 0)
        "U1" "new msg" 6).buffers "U1" = some b'' ∧ b''.messages = ["new msg"]) :=
  claim_C3_expiry_protocol_amended _ 0 (TimerTask.mk "U1" 0 .sleeping none)
    (MessageBuffer.mk "U1" ["Hi"] (some 0) 0 0) "new msg" 6 (by decide) (by decide)

/-- C4 counterexample: `DebounceManager.__init__` performs no validation
(lines 51–60 only store the duration and create the empty dict), so
construction with the non-positive duration 0 does NOT fail fast: it
yields a fully formed manager that stores 0 and accepts messages —
refuting "constructing … with a non-positive debounce duration fails fast
at construction time". -/
theorem claim_C4_validation_counterexample :
    DebounceManager.init 0 = DebounceManager.mk 0 [] [] [] [] 0 ∧
    (DebounceManager.init 0).debounce_seconds = 0 ∧
    (lookupBuf (add_message (DebounceManager.init 0) "U1" "hi" 0).buffers "U1").map
        MessageBuffer.messages = some ["hi"] := by
  decide

/-- C4 amended: construction never validates the duration — every
duration, positive, zero or negative, is accepted, and the constructed
manager stores that duration with an empty buffer map. -/
theorem claim_C4_validation_amended (d : ℤ) :
    (DebounceManager.init d).debounce_seconds = d ∧
    (DebounceManager.init d).buffers = [] ∧
    (DebounceManager.init d).callbackLog = [] :=
  ⟨rfl, rfl, rfl⟩

/-- C5 (Callback failure containment): when a timer expires and flushes,
the Trigger Callback is invoked exactly once with the aggregated text; if
the callback raises, the exception is caught by `except Exception`
(line 136) and logged (the timer task still completes normally — its
status ends `done`, nothing propagates out of it), it is not retried (the
callback log gains exactly the one invocation), and the idle period is
terminally flushed: the fragments were cleared before the invocation and
remain cleared — the text is not requeued. -/
theorem claim_C5_callback_failure (cbFail : String → String → Bool)
    (st : DebounceManager) (tid : Nat) (tk : TimerTask) (b : MessageBuffer)
    (h1 : st.tasks.get? tid = some tk) (hsl : tk.status = .sleeping)
    (h2 : lookupBuf st.buffers tk.phone = some b) :
    (timerExpire st tid).callbackLog =
      st.callbackLog ++ [(tid, tk.phone, String.intercalate " " b.messages)] ∧
    (timerFinish cbFail (timerExpire st tid) tid).callbackLog =
      st.callbackLog ++ [(tid, tk.phone, String.intercalate " " b.messages)] ∧
    taskStatus (timerFinish cbFail (timerExpire st tid) tid).tasks tid = some .done ∧
    (cbFail tk.phone (String.intercalate " " b.messages) = true →
      (timerFinish cbFail (timerExpire st tid) tid).errorLog =
        st.errorLog ++ [tk.phone]) ∧
    (∃ b', lookupBuf (timerFinish cbFail (timerExpire st tid) tid).buffers tk.phone =
       some b' ∧ b'.messages = []) := by
  rw [timerExpire_of_found h1 h2]
  have hget1 : (modifyTask st.tasks tid
      (fun u => { u with status := .running
                         invokedWith := some (tk.phone, String.intercalate " " b.messages) })).get?
        tid =
      some { tk with status := .running
                     invokedWith := some (tk.phone, String.intercalate " " b.messages) } := by
    rw [modifyTask_get?_self, h1]
    rfl
  rw [timerFinish_char cbFail hget1]
  refine ⟨rfl, rfl, ?_, ?_, ?_⟩
  · have hget2 : (modifyTask (modifyTask st.tasks tid
        (fun u => { u with status := .running
                           invokedWith := some (tk.phone, String.intercalate " " b.messages) }))
          tid (fun u => { u with status := .done })).get? tid =
        some { tk with status := .done
                       invokedWith := some (tk.phone, String.intercalate " " b.messages) } := by
      rw [modifyTask_get?_self, hget1]
      rfl
    exact (taskStatus_of_get? hget2).trans rfl
  · intro hcb
    show (if cbFail tk.phone (String.intercalate " " b.messages) then
        st.errorLog ++ [tk.phone] else st.errorLog) = st.errorLog ++ [tk.phone]
    rw [if_pos hcb]
  · refine ⟨{ b with messages := [] }, ?_, rfl⟩
    show lookupBuf (setBuf st.buffers tk.phone { b with messages := [] }) tk.phone = _
    exact lookupBuf_setBuf_self _ _ _

/-- Witness for C5 at the concrete run `add("U1","Hi")` then expiry, with
a callback that always raises: the invocation happens once, the exception
is logged, the task completes, the fragments stay cleared. -/
theorem claim_C5_callback_failure_witness :
    (timerExpire (add_message (DebounceManager.init 3) "U1" "Hi" 0) 0).callbackLog =
      [] ++ [(0, "U1", String.intercalate " " ["Hi"])] ∧
    (timerFinish (fun _ _ => true)
        (timerExpire (add_message (DebounceManager.init 3) "U1" "Hi" 0) 0) 0).callbackLog =
      [] ++ [(0, "U1", String.intercalate " " ["Hi"])] ∧
    taskStatus (timerFinish (fun _ _ => true)
        (timerExpire (add_message (DebounceManager.init 3) "U1" "Hi" 0) 0) 0).tasks 0 =
      some .done ∧
    ((fun _ _ => true : String → String → Bool) "U1" (String.intercalate " " ["Hi"]) = true →
      (timerFinish (fun _ _ => true)
          (timerExpire (add_message (DebounceManager.init 3) "U1" "Hi" 0) 0) 0).errorLog =
        [] ++ ["U1"]) ∧
    (∃ b', lookupBuf (timerFinish (fun _ _ => true)
        (timerExpire (add_message (DebounceManager.init 3) "U1" "Hi" 0) 0) 0).buffers "U1" =
      some b' ∧ b'.messages = []) :=
  claim_C5_callback_failure (fun _ _ => true) _ 0 (TimerTask.mk "U1" 0 .sleeping none)
    (MessageBuffer.mk "U1" ["Hi"] (some 0) 0 0) (by decide) (by decide) (by decide)

/-- C6 (Per-sender isolation): for distinct senders `S1 ≠ S2`,
`add_message` for `S1` leaves `S2`'s buffer (all fields) and `S2`'s timer
task untouched, and a flush of a timer belonging to `S1` leaves `S2`'s
buffer untouched, adds no callback for `S2`, and logs (if anything) only
`S1`'s own aggregated fragments. -/
theorem claim_C6_per_sender_isolation (st : DebounceManager) (S1 S2 x : String) (t : ℤ)
    (hInv : Inv st) (hne : S2 ≠ S1) :
    lookupBuf (add_message st S1 x t).buffers S2 = lookupBuf st.buffers S2 ∧
    (∀ b i, lookupBuf st.buffers S2 = some b → b.timer_task = some i →
       (add_message st S1 x t).tasks.get? i = st.tasks.get? i) ∧
    (∀ tid tk, st.tasks.get? tid = some tk → tk.phone = S1 →
       lookupBuf (timerExpire st tid).buffers S2 = lookupBuf st.buffers S2 ∧
       callbacksFor S2 (timerExpire st tid).callbackLog =
         callbacksFor S2 st.callbackLog ∧
       ((timerExpire st tid).callbackLog = st.callbackLog ∨
         ∃ b1, lookupBuf st.buffers S1 = some b1 ∧
           (timerExpire st tid).callbackLog =
             st.callbackLog ++ [(tid, S1, String.intercalate " " b1.messages)])) := by
  have hS2S1 : S2 ≠ S1 := hne
  refine ⟨(frame_add (S := S2) x t hInv (fun e => hne e.symm)).1, ?_, ?_⟩
  · intro b i hb hi
    obtain ⟨tki, htki, hphi⟩ := hInv.timerRef S2 b i hb hi
    cases hb1 : lookupBuf st.buffers S1 with
    | none =>
        rw [add_message_of_not_tracked hb1]
        show (st.tasks ++ [TimerTask.mk S1 t .sleeping none]).get? i = st.tasks.get? i
        rw [get?_snoc, if_pos (get?_lt_length htki)]
    | some b1 =>
        cases hbt1 : b1.timer_task with
        | none => exact absurd hbt1 (hInv.timerSome S1 b1 hb1)
        | some i0 =>
            obtain ⟨tk0, htk0, hph0⟩ := hInv.timerRef S1 b1 i0 hb1 hbt1
            have hii0 : i ≠ i0 := by
              intro e
              rw [e, htk0] at htki
              injection htki with htki
              rw [htki] at hph0
              rw [hph0] at hphi
              exact hne hphi.symm
            rw [add_message_of_tracked hb1, hbt1]
            show (rearmTasks st.tasks (some i0) ++ [TimerTask.mk S1 t .sleeping none]).get? i
              = st.tasks.get? i
            have hlt : i < (rearmTasks st.tasks (some i0)).length := by
              rw [rearmTasks_length]
              exact get?_lt_length htki
            rw [get?_snoc, if_pos hlt, rearmTasks_get?_ne _ _ _ hii0]
  · intro tid tk htk hph
    have hphS2 : tk.phone ≠ S2 := by
      rw [hph]
      exact fun e => hne e.symm
    obtain ⟨f1, f2, -, -, -⟩ := frame_expire (S := S2) htk hphS2
    refine ⟨f1, f2, ?_⟩
    cases hbb : lookupBuf st.buffers tk.phone with
    | none =>
        left
        rw [timerExpire_of_no_buffer htk hbb]
    | some b1 =>
        right
        refine ⟨b1, by rw [← hph]; exact hbb, ?_⟩
        rw [timerExpire_of_found htk hbb]
        show st.callbackLog ++ [(tid, tk.phone, String.intercalate " " b1.messages)] = _
        rw [hph]

/-- Witness for C6 at a concrete two-sender state: after `add("U1","a")`
and `add("U2","b")`, an `add` for U1 leaves U2's buffer and timer task
unchanged, and a flush of U1's timer leaves U2's buffer unchanged. -/
theorem claim_C6_per_sender_isolation_witness :
    lookupBuf (add_message (run (fun _ _ => false) (DebounceManager.init 3)
        [.add "U1" "a" 0, .add "U2" "b" 0]) "U1" "x" 1).buffers "U2" =
      lookupBuf (run (fun _ _ => false) (DebounceManager.init 3)
        [.add "U1" "a" 0, .add "U2" "b" 0]).buffers "U2" ∧
    (add_message (run (fun _ _ => false) (DebounceManager.init 3)
        [.add "U1" "a" 0, .add "U2" "b" 0]) "U1" "x" 1).tasks.get? 1 =
      (run (fun _ _ => false) (DebounceManager.init 3)
        [.add "U1" "a" 0, .add "U2" "b" 0]).tasks.get? 1 ∧
    lookupBuf (timerExpire (run (fun _ _ => false) (DebounceManager.init 3)
        [.add "U1" "a" 0, .add "U2" "b" 0]) 0).buffers "U2" =
      lookupBuf (run (fun _ _ => false) (DebounceManager.init 3)
        [.add "U1" "a" 0, .add "U2" "b" 0]).buffers "U2" :=
  ⟨(claim_C6_per_sender_isolation _ "U1" "U2" "x" 1
      (reachable_inv ⟨3, fun _ _ => false, [.add "U1" "a" 0, .add "U2" "b" 0], rfl⟩)
      (by decide)).1,
   (claim_C6_per_sender_isolation _ "U1" "U2" "x" 1
      (reachable_inv ⟨3, fun _ _ => false, [.add "U1" "a" 0, .add "U2" "b" 0], rfl⟩)
      (by decide)).2.1 (MessageBuffer.mk "U2" ["b"] (some 1) 0 0) 1 (by decide) (by decide),
   ((claim_C6_per_sender_isolation _ "U1" "U2" "x" 1
      (reachable_inv ⟨3, fun _ _ => false, [.add "U1" "a" 0, .add "U2" "b" 0], rfl⟩)
      (by decide)).2.2 0 (TimerTask.mk "U1" 0 .sleeping none) (by decide) (by decide)).1⟩

/-- C7 (clear semantics and idempotence): `clear_buffer` is a no-op for an
untracked sender; for a tracked sender it removes the buffer entirely
(and only that sender's buffer), cancels the buffer's active timer
(a sleeping or running task ends cancelled), and applying it twice equals
applying it once. -/
theorem claim_C7_clear_idempotent (st : DebounceManager) (p : String) :
    (lookupBuf st.buffers p = none → clear_buffer st p = st) ∧
    lookupBuf (clear_buffer st p).buffers p = none ∧
    (∀ q, q ≠ p → lookupBuf (clear_buffer st p).buffers q = lookupBuf st.buffers q) ∧
    (∀ b i tk, lookupBuf st.buffers p = some b → b.timer_task = some i →
       st.tasks.get? i = some tk → (tk.status = .sleeping ∨ tk.status = .running) →
       taskStatus (clear_buffer st p).tasks i = some .cancelled) ∧
    clear_buffer (clear_buffer st p) p = clear_buffer st p := by
  have h2 : lookupBuf (clear_buffer st p).buffers p = none := by
    cases hb : lookupBuf st.buffers p with
    | none =>
        rw [clear_buffer_of_not_tracked hb]
        exact hb
    | some b =>
        rw [clear_buffer_of_tracked hb]
        show lookupBuf (delBuf st.buffers p) p = none
        exact lookupBuf_delBuf_self _ _
  refine ⟨fun hb => clear_buffer_of_not_tracked hb, h2, ?_, ?_, ?_⟩
  · intro q hq
    cases hb : lookupBuf st.buffers p with
    | none => rw [clear_buffer_of_not_tracked hb]
    | some b =>
        rw [clear_buffer_of_tracked hb]
        show lookupBuf (delBuf st.buffers p) q = lookupBuf st.buffers q
        exact lookupBuf_delBuf_ne _ _ _ hq
  · intro b i tk hb hi htk hst
    rw [clear_buffer_of_tracked hb, hi]
    show taskStatus (cancelTask st.tasks i) i = some .cancelled
    have : (cancelTask st.tasks i).get? i = some (match tk.status with
        | .sleeping => { tk with status := .cancelled }
        | .running => { tk with status := .cancelled }
        | _ => tk) := by
      rw [cancelTask_get?_self, htk]
      rfl
    rw [taskStatus_of_get? this]
    rcases hst with h | h <;> rw [h]
  · exact clear_buffer_of_not_tracked h2

/-- Witness for C7 at a concrete tracked/untracked pair of senders. -/
theorem claim_C7_clear_idempotent_witness :
    (lookupBuf (run (fun _ _ => false) (DebounceManager.init 3)
        [.add "U1" "a" 0]).buffers "nobody" = none →
      clear_buffer (run (fun _ _ => false) (DebounceManager.init 3)
        [.add "U1" "a" 0]) "nobody" =
        run (fun _ _ => false) (DebounceManager.init 3) [.add "U1" "a" 0]) ∧
    lookupBuf (clear_buffer (run (fun _ _ => false) (DebounceManager.init 3)
        [.add "U1" "a" 0]) "U1").buffers "U1" = none ∧
    clear_buffer (clear_buffer (run (fun _ _ => false) (DebounceManager.init 3)
        [.add "U1" "a" 0]) "U1") "U1" =
      clear_buffer (run (fun _ _ => false) (DebounceManager.init 3)
        [.add "U1" "a" 0]) "U1" ∧
    taskStatus (clear_buffer (run (fun _ _ => false) (DebounceManager.init 3)
        [.add "U1" "a" 0]) "U1").tasks 0 = some .cancelled :=
  ⟨(claim_C7_clear_idempotent _ "nobody").1,
   (claim_C7_clear_idempotent _ "U1").2.1,
   (claim_C7_clear_idempotent _ "U1").2.2.2.2,
   (claim_C7_clear_idempotent _ "U1").2.2.2.1 (MessageBuffer.mk "U1" ["a"] (some 0) 0 0) 0
     (TimerTask.mk "U1" 0 .sleeping none) (by decide) (by decide) (by decide)
     (Or.inl (by decide))⟩

/-- C8 (getStatus contract): `get_buffer_status` returns `none` exactly
when no buffer is tracked for the sender; otherwise it returns the record
with the sender, the fragment count and contents, both timestamps, and the
timer-activity value, which in every reachable state is a genuine boolean
(`some _` — the Python `None` case of `timer_task and not done()` is
unreachable once `add_message` has completed).  The operation itself is a
pure read: its embedding `get_buffer_status : DebounceManager → String →
Option BufferStatus` returns no modified state, mirroring that the source
method performs no assignment. -/
theorem claim_C8_get_buffer_status (st : DebounceManager) (p : String)
    (h : Reachable st) :
    (get_buffer_status st p = none ↔ lookupBuf st.buffers p = none) ∧
    (∀ b, lookupBuf st.buffers p = some b →
       get_buffer_status st p = some (BufferStatus.mk p b.messages.length b.messages
         b.created_at b.last_updated (b.timer_task.map (fun i => !taskDone st.tasks i))) ∧
       ∃ bv, b.timer_task.map (fun i => !taskDone st.tasks i) = some bv) := by
  constructor
  · constructor
    · intro hs
      cases hb : lookupBuf st.buffers p with
      | none => rfl
      | some b =>
          unfold get_buffer_status at hs
          rw [hb] at hs
          exact Option.noConfusion hs
    · intro hb
      unfold get_buffer_status
      rw [hb]
  · intro b hb
    constructor
    · unfold get_buffer_status
      rw [hb]
    · obtain ⟨i, hi⟩ : ∃ i, b.timer_task = some i := by
        cases hbt : b.timer_task with
        | none => exact absurd hbt ((reachable_inv h).timerSome p b hb)
        | some i => exact ⟨i, rfl⟩
      rw [hi]
      exact ⟨!taskDone st.tasks i, rfl⟩

/-- Witness for C8 at a concrete reachable state. -/
theorem claim_C8_get_buffer_status_witness :
    (get_buffer_status (run (fun _ _ => false) (DebounceManager.init 3)
        [.add "U1" "a" 0]) "U1" = none ↔
      lookupBuf (run (fun _ _ => false) (DebounceManager.init 3)
        [.add "U1" "a" 0]).buffers "U1" = none) ∧
    get_buffer_status (run (fun _ _ => false) (DebounceManager.init 3)
        [.add "U1" "a" 0]) "U1" =
      some (BufferStatus.mk "U1" 1 ["a"] 0 0 (some true)) :=
  ⟨(claim_C8_get_buffer_status _ "U1"
      ⟨3, fun _ _ => false, [.add "U1" "a" 0], rfl⟩).1,
   (((claim_C8_get_buffer_status _ "U1"
      ⟨3, fun _ _ => false, [.add "U1" "a" 0], rfl⟩).2
      (MessageBuffer.mk "U1" ["a"] (some 0) 0 0) (by decide)).1).trans (by decide)⟩

/-- C9 counterexample: after `add("U1","Hi")` at t=0 and the flush at
t=3, the buffer for U1 still exists in the mapping but its fragment list
is empty — refuting "`fragments` is non-empty whenever a buffer exists"
as an invariant preserved by every operation (the flush clears fragments
but does not remove the buffer). -/
theorem claim_C9_invariant_counterexample :
    (lookupBuf (run (fun _ _ => false) (DebounceManager.init 3)
        [.add "U1" "Hi" 0, .expire 0 3]).buffers "U1").map MessageBuffer.messages =
      some [] := by
  decide

/-- C9 amended: in every reachable state each sender has zero or one
buffer (the dict keys are duplicate-free, preserved by every operation),
a buffer is created atomically with its first fragment, and a buffer's
fragments are non-empty EXCEPT after its timer has fired: an empty
fragment list implies the buffer's timer task is running its callback or
already done — the emptied buffer stays in the mapping until the next
`add_message` or `clear_buffer`. -/
theorem claim_C9_buffer_invariants_amended (st : DebounceManager) (h : Reachable st) :
    (bufKeys st.buffers).Nodup ∧
    (∀ p b, lookupBuf st.buffers p = some b → b.messages = [] →
       ∃ i tk, b.timer_task = some i ∧ st.tasks.get? i = some tk ∧
         (tk.status = .running ∨ tk.status = .done)) ∧
    (∀ p x t, lookupBuf st.buffers p = none →
       ∃ b, lookupBuf (add_message st p x t).buffers p = some b ∧ b.messages = [x]) := by
  have hI := reachable_inv h
  refine ⟨hI.nodup, ?_, ?_⟩
  · intro p b hb hm
    cases hbt : b.timer_task with
    | none => exact absurd hbt (hI.timerSome p b hb)
    | some i =>
        obtain ⟨tk, htk, -⟩ := hI.timerRef p b i hb hbt
        exact ⟨i, tk, rfl, htk, hI.emptyFired p b i tk hb hm hbt htk⟩
  · intro p x t hb
    rw [add_message_of_not_tracked hb]
    exact ⟨_, lookupBuf_setBuf_self _ _ _, rfl⟩

/-- Witness for C9's amended statement at the post-flush state. -/
theorem claim_C9_buffer_invariants_amended_witness :
    (bufKeys (run (fun _ _ => false) (DebounceManager.init 3)
        [.add "U1" "Hi" 0, .expire 0 3]).buffers).Nodup ∧
    (∃ i tk, (MessageBuffer.mk "U1" ([] : List String) (some 0) 0 0).timer_task = some i ∧
       (run (fun _ _ => false) (DebounceManager.init 3)
        [.add "U1" "Hi" 0, .expire 0 3]).tasks.get? i = some tk ∧
       (tk.status = .running ∨ tk.status = .done)) ∧
    (∃ b, lookupBuf (add_message (run (fun _ _ => false) (DebounceManager.init 3)
        [.add "U1" "Hi" 0, .expire 0 3]) "U2" "x" 5).buffers "U2" = some b ∧
       b.messages = ["x"]) :=
  ⟨(claim_C9_buffer_invariants_amended _
      ⟨3, fun _ _ => false, [.add "U1" "Hi" 0, .expire 0 3], rfl⟩).1,
   (claim_C9_buffer_invariants_amended _
      ⟨3, fun _ _ => false, [.add "U1" "Hi" 0, .expire 0 3], rfl⟩).2.1 "U1"
      (MessageBuffer.mk "U1" ([] : List String) (some 0) 0 0) (by decide) (by decide),
   (claim_C9_buffer_invariants_amended _
      ⟨3, fun _ _ => false, [.add "U1" "Hi" 0, .expire 0 3], rfl⟩).2.2 "U2" "x" 5
      (by decide)⟩

/-- C10 (Entry retention after flush): `add_message` never removes keys
from the sender-to-buffer mapping, timer expiry and callback completion
leave the key set exactly unchanged (only `clear_buffer` removes
entries), and after a flush the sender is still tracked with fragment
count 0 — `get_buffer_status` returns a record with `message_count = 0`,
not "not found". -/
theorem claim_C10_entry_retention (st : DebounceManager) :
    (∀ p x t q, q ∈ bufKeys st.buffers → q ∈ bufKeys (add_message st p x t).buffers) ∧
    (∀ tid, bufKeys (timerExpire st tid).buffers = bufKeys st.buffers) ∧
    (∀ cbFail tid, bufKeys (timerFinish cbFail st tid).buffers = bufKeys st.buffers) ∧
    (∀ tid tk b, st.tasks.get? tid = some tk → lookupBuf st.buffers tk.phone = some b →
       get_buffer_status (timerExpire st tid) tk.phone =
         some (BufferStatus.mk tk.phone 0 [] b.created_at b.last_updated
           (b.timer_task.map (fun i => !taskDone (timerExpire st tid).tasks i)))) := by
  refine ⟨?_, ?_, ?_, ?_⟩
  · intro p x t q hq
    cases hb : lookupBuf st.buffers p with
    | none =>
        rw [add_message_of_not_tracked hb]
        show q ∈ bufKeys (setBuf st.buffers p _)
        rw [bufKeys_setBuf_of_not_mem _ _ _ (by
          rw [mem_bufKeys_iff_lookupBuf]
          simp [hb])]
        exact List.mem_append_left _ hq
    | some b =>
        rw [add_message_of_tracked hb]
        show q ∈ bufKeys (setBuf st.buffers p _)
        rw [bufKeys_setBuf_of_mem _ _ _ (by
          rw [mem_bufKeys_iff_lookupBuf]
          simp [hb])]
        exact hq
  · intro tid
    cases hts : st.tasks.get? tid with
    | none =>
        unfold timerExpire
        rw [hts]
    | some tk =>
        cases hbb : lookupBuf st.buffers tk.phone with
        | none => rw [timerExpire_of_no_buffer hts hbb]
        | some b =>
            rw [timerExpire_of_found hts hbb]
            show bufKeys (setBuf st.buffers tk.phone _) = bufKeys st.buffers
            exact bufKeys_setBuf_of_mem _ _ _ (by
              rw [mem_bufKeys_iff_lookupBuf]
              simp [hbb])
  · intro cbFail tid
    rw [timerFinish_buffers]
  · intro tid tk b hts hbb
    rw [timerExpire_of_found hts hbb]
    show get_buffer_status _ tk.phone = _
    unfold get_buffer_status
    simp only [lookupBuf_setBuf_self]
    rfl

/-- Witness for C10 at a concrete state: keys survive an `add` and a
flush, and the post-flush status reports fragment count 0. -/
theorem claim_C10_entry_retention_witness :
    ("U1" ∈ bufKeys (run (fun _ _ => false) (DebounceManager.init 3)
        [.add "U1" "a" 0]).buffers →
      "U1" ∈ bufKeys (add_message (run (fun _ _ => false) (DebounceManager.init 3)
        [.add "U1" "a" 0]) "U2" "b" 1).buffers) ∧
    bufKeys (timerExpire (run (fun _ _ => false) (DebounceManager.init 3)
        [.add "U1" "a" 0]) 0).buffers =
      bufKeys (run (fun _ _ => false) (DebounceManager.init 3)
        [.add "U1" "a" 0]).buffers ∧
    get_buffer_status (timerExpire (run (fun _ _ => false) (DebounceManager.init 3)
        [.add "U1" "a" 0]) 0) "U1" =
      some (BufferStatus.mk "U1" 0 [] 0 0 (some true)) :=
  ⟨fun hq => (claim_C10_entry_retention _).1 "U2" "b" 1 "U1" hq,
   (claim_C10_entry_retention _).2.1 0,
   ((claim_C10_entry_retention _).2.2.2 0 (TimerTask.mk "U1" 0 .sleeping none)
      (MessageBuffer.mk "U1" ["a"] (some 0) 0 0) (by decide) (by decide)).trans
     (by decide)⟩

end ClaraDebounce
